import Mathlib

/-!
# msign: versioned text encoding of Ed25519 keys and signatures

A shallow embedding of `common.go` and `msignv1.go` (with the `LimitedWriter`
helper of `common_test.go`), followed by theorems about it.

* Go `byte` is `Fin 256`; a slice `[]byte` and a Go `string` are `List Byte`;
  a fixed array `[n]byte` is `Bytes n`.
* `io.Reader` and `io.Writer` values are explicit states (`Reader`, `Writer`);
  a nil interface value is `none`.
* A Go result pair `(value, error)` whose value is nil on error is an `Except`.
* The standard-library functions the source calls are modelled next to it:
  `crypto/sha256.Sum256` concretely (FIPS 180-4), the `encoding/base64`
  stream encoder and decoder for `RawURLEncoding` concretely, and
  `crypto/sha512` and `crypto/ed25519` as the fields of a `Primitive`.
-/

namespace Msign

/-! ## Bytes, slices and arrays -/

/-- A Go `byte`. -/
abbrev Byte := Fin 256

/-- Conversion `byte(n)` of an unsigned integer: the low 8 bits. -/
def byte (n : Nat) : Byte := ⟨n % 256, Nat.mod_lt n (by decide)⟩

/-- A Go fixed-size array `[n]byte`. -/
abbrev Bytes (n : Nat) := { l : List Byte // l.length = n }

/-- The zero value of `[n]byte`. -/
def Bytes.zero (n : Nat) : Bytes n := ⟨List.replicate n 0, List.length_replicate n 0⟩

/-- The bytes of a Go string literal (all literals of the source are ASCII). -/
def str (s : String) : List Byte := s.toList.map (fun c => byte c.toNat)

/-- Go `copy(dst[off:], src)` on a slice `dst` with `off ≤ len(dst)`: overwrites
`min(len(dst) - off, len(src))` bytes of `dst` from offset `off`, keeps the rest. -/
def copyAt (dst : List Byte) (off : Nat) (src : List Byte) : List Byte :=
  dst.take off ++ src.take (dst.length - off) ++ dst.drop (off + src.length)

/-- Go `copy(a[:], src)` into a zero-valued array `a` of type `[n]byte`. -/
def copyArr (n : Nat) (src : List Byte) : Bytes n :=
  ⟨copyAt (List.replicate n 0) 0 src, by
    simp only [copyAt, List.length_append, List.length_take, List.length_drop,
      List.length_replicate]
    omega⟩

/-! ## crypto/sha256 (standard library, FIPS 180-4) -/

namespace SHA256

/-- Round constants. -/
def K : List Nat :=
  [0x428a2f98, 0x71374491, 0xb5c0fbcf, 0xe9b5dba5, 0x3956c25b, 0x59f111f1, 0x923f82a4, 0xab1c5ed5,
   0xd807aa98, 0x12835b01, 0x243185be, 0x550c7dc3, 0x72be5d74, 0x80deb1fe, 0x9bdc06a7, 0xc19bf174,
   0xe49b69c1, 0xefbe4786, 0x0fc19dc6, 0x240ca1cc, 0x2de92c6f, 0x4a7484aa, 0x5cb0a9dc, 0x76f988da,
   0x983e5152, 0xa831c66d, 0xb00327c8, 0xbf597fc7, 0xc6e00bf3, 0xd5a79147, 0x06ca6351, 0x14292967,
   0x27b70a85, 0x2e1b2138, 0x4d2c6dfc, 0x53380d13, 0x650a7354, 0x766a0abb, 0x81c2c92e, 0x92722c85,
   0xa2bfe8a1, 0xa81a664b, 0xc24b8b70, 0xc76c51a3, 0xd192e819, 0xd6990624, 0xf40e3585, 0x106aa070,
   0x19a4c116, 0x1e376c08, 0x2748774c, 0x34b0bcb5, 0x391c0cb3, 0x4ed8aa4a, 0x5b9cca4f, 0x682e6ff3,
   0x748f82ee, 0x78a5636f, 0x84c87814, 0x8cc70208, 0x90befffa, 0xa4506ceb, 0xbef9a3f7, 0xc67178f2]

/-- Addition of 32-bit words. -/
def add32 (a b : Nat) : Nat := (a + b) % 4294967296

/-- Rotation of a 32-bit word to the right by `n` bits. -/
def rotr (x n : Nat) : Nat := ((x >>> n) ||| (x <<< (32 - n))) % 4294967296

def ch (x y z : Nat) : Nat := (x &&& y) ^^^ ((4294967295 - x) &&& z)

def maj (x y z : Nat) : Nat := (x &&& y) ^^^ (x &&& z) ^^^ (y &&& z)

def bsig0 (x : Nat) : Nat := rotr x 2 ^^^ rotr x 13 ^^^ rotr x 22

def bsig1 (x : Nat) : Nat := rotr x 6 ^^^ rotr x 11 ^^^ rotr x 25

def ssig0 (x : Nat) : Nat := rotr x 7 ^^^ rotr x 18 ^^^ (x >>> 3)

def ssig1 (x : Nat) : Nat := rotr x 17 ^^^ rotr x 19 ^^^ (x >>> 10)

/-- The eight working words of the hash state. -/
structure State where
  a : Nat
  b : Nat
  c : Nat
  d : Nat
  e : Nat
  f : Nat
  g : Nat
  h : Nat

/-- Initial hash value. -/
def init : State :=
  ⟨0x6a09e667, 0xbb67ae85, 0x3c6ef372, 0xa54ff53a, 0x510e527f, 0x9b05688c, 0x1f83d9ab, 0x5be0cd19⟩

/-- The 64-word message schedule of a block of 16 words. -/
def schedule (block : List Nat) : List Nat :=
  (List.range 48).foldl
    (fun w i => w ++ [add32 (add32 (ssig1 (w.getD (i + 14) 0)) (w.getD (i + 9) 0))
                        (add32 (ssig0 (w.getD (i + 1) 0)) (w.getD i 0))])
    block

/-- One round with round constant plus schedule word `kw`. -/
def round (s : State) (k w : Nat) : State :=
  let t1 := add32 (add32 (add32 (add32 s.h (bsig1 s.e)) (ch s.e s.f s.g)) k) w
  let t2 := add32 (bsig0 s.a) (maj s.a s.b s.c)
  ⟨add32 t1 t2, s.a, s.b, s.c, add32 s.d t1, s.e, s.f, s.g⟩

/-- Compression of one block of 16 words into the state. -/
def compress (s : State) (block : List Nat) : State :=
  let t := (List.zip K (schedule block)).foldl (fun st kw => round st kw.1 kw.2) s
  ⟨add32 s.a t.a, add32 s.b t.b, add32 s.c t.c, add32 s.d t.d,
   add32 s.e t.e, add32 s.f t.f, add32 s.g t.g, add32 s.h t.h⟩

/-- Big-endian 32-bit words of a byte string. -/
def toWords : List Nat → List Nat
  | a :: b :: c :: d :: rest => (a * 16777216 + b * 65536 + c * 256 + d) :: toWords rest
  | _ => []

/-- Message padding: a one bit, zeros, and the bit length as a 64-bit big-endian integer. -/
def pad (msg : List Nat) : List Nat :=
  let n := msg.length
  msg ++ [128] ++ List.replicate ((119 - n % 64) % 64) 0
    ++ (List.range 8).map (fun i => (8 * n) / 256 ^ (7 - i) % 256)

/-- Compression of `n` successive blocks. -/
def blocks : Nat → State → List Nat → State
  | 0, s, _ => s
  | n + 1, s, ws => blocks n (compress s (ws.take 16)) (ws.drop 16)

/-- The big-endian bytes of a 32-bit word. -/
def wordBytes (w : Nat) : List Byte :=
  [byte (w / 16777216), byte (w / 65536), byte (w / 256), byte w]

/-- The digest as a byte list. -/
def digest (msg : List Byte) : List Byte :=
  let ws := toWords (pad (msg.map Fin.val))
  let s := blocks (ws.length / 16) init ws
  wordBytes s.a ++ wordBytes s.b ++ wordBytes s.c ++ wordBytes s.d
    ++ wordBytes s.e ++ wordBytes s.f ++ wordBytes s.g ++ wordBytes s.h

/-- Go `sha256.Sum256`. -/
def Sum256 (data : List Byte) : Bytes 32 := ⟨digest data, rfl⟩

end SHA256

/-! ## Errors, readers and writers -/

/-- Go `error` values: the eight error variables of `common.go`, `io.EOF`,
`base64.CorruptInputError` (its offset is not modelled) and any other error a
reader, a writer or the primitive may return. -/
inductive Error where
  | ErrInvalidPubFormat
  | ErrInvalidSigFormat
  | ErrInvalidKeyFormat
  | ErrInvalidSignature
  | ErrKeyIdMismatch
  | ErrUnknownType
  | ErrNilWriter
  | ErrNilReader
  | EOF
  | CorruptInputError
  | other (code : Nat)
  deriving DecidableEq, Repr

deriving instance DecidableEq for Except

/-- An `io.Reader`: the bytes it still delivers, then the error it returns once
they are exhausted (`io.EOF` for a stream that simply ends). -/
structure Reader where
  data : List Byte
  err : Error
  deriving DecidableEq, Repr

/-- Go `strings.NewReader(s)` and `bytes.NewReader(b)`. -/
def NewReader (s : List Byte) : Reader := ⟨s, .EOF⟩

/-- Go `iotest.ErrReader(e)`. -/
def ErrReader (e : Error) : Reader := ⟨[], e⟩

/-- Outcome of `io.Copy(dst, src)`: the bytes written to `dst`, the returned
error (none when `src` ended with `io.EOF`) and the drained source. -/
structure CopyResult where
  written : List Byte
  err : Option Error
  src : Reader

/-- Go `io.Copy(dst, src)` into a sink that accepts everything (a hash). -/
def ioCopy (src : Reader) : CopyResult :=
  ⟨src.data, if src.err = .EOF then none else some src.err, ⟨[], src.err⟩⟩

/-- Go `bufio.NewReader(r).ReadString(delim)`: the bytes up to and including the
first `delim`, or the reader's error when it fails before a `delim` is read. -/
def ReadString (r : Reader) (delim : Byte) : Except Error (List Byte) :=
  if delim ∈ r.data then .ok (r.data.takeWhile (fun c => c ≠ delim) ++ [delim])
  else .error r.err

/-- An `io.Writer`: a `bytes.Buffer` holding what was written, or the
`LimitedWriter` of `common_test.go` around another writer. -/
inductive Writer where
  | buffer (data : List Byte)
  | limited (W : Writer) (N : Int) (Err : Error)
  deriving DecidableEq, Repr

/-- Method `Write(p)`: the pair `(n, err)` it returns and the writer afterwards. -/
def Writer.Write : Writer → List Byte → (Nat × Option Error) × Writer
  | .buffer data, p => ((p.length, none), .buffer (data ++ p))
  | .limited W N Err, p =>
    if N < 1 then ((0, some Err), .limited W N Err)
    else
      let p1 := if N < (p.length : Int) then p.take N.toNat else p
      let r := W.Write p1
      (r.1, .limited r.2 (N - (r.1.1 : Int)) Err)

/-- Go `LimitWriter(w, limit)` of `common_test.go`. -/
def LimitWriter (w : Writer) (limit : Int) : Writer := .limited w limit .ErrUnknownType

/-! ## encoding/base64 (standard library), `RawURLEncoding` -/

namespace Base64

/-- Alphabet of `base64.URLEncoding`. -/
def encodeURL : List Byte :=
  str "ABCDEFGHIJKLMNOPQRSTUVWXYZabcdefghijklmnopqrstuvwxyz0123456789-_"

/-- Table lookup `enc.encode[v&0x3F]`. -/
def encodeChar (v : Nat) : Byte := encodeURL.getD (v % 64) 0

/-- Table lookup `enc.decodeMap[c]`; `none` stands for the invalid marker 0xFF. -/
def decodeChar (c : Byte) : Option Nat :=
  if c ∈ encodeURL then some (encodeURL.indexOf c) else none

/-- Go `RawURLEncoding.Encode`: 3 bytes give 4 characters, a final group of 1 or
2 bytes gives 2 or 3 characters, no padding. -/
def Encode : List Byte → List Byte
  | [] => []
  | [a] =>
    let val := a.val * 65536
    [encodeChar (val / 262144), encodeChar (val / 4096)]
  | [a, b] =>
    let val := a.val * 65536 + b.val * 256
    [encodeChar (val / 262144), encodeChar (val / 4096), encodeChar (val / 64)]
  | a :: b :: c :: rest =>
    let val := a.val * 65536 + b.val * 256 + c.val
    encodeChar (val / 262144) :: encodeChar (val / 4096) :: encodeChar (val / 64)
      :: encodeChar val :: Encode rest

/-- Go `RawURLEncoding.Decode` on input without `\r` and `\n`: 4 characters give
3 bytes, a final group of 2 or 3 characters gives 1 or 2 bytes, a final single
character or a character outside the alphabet is a `CorruptInputError`. -/
def Decode : List Byte → Except Error (List Byte)
  | [] => .ok []
  | [_] => .error .CorruptInputError
  | [c0, c1] =>
    match decodeChar c0, decodeChar c1 with
    | some d0, some d1 =>
      let val := d0 * 262144 + d1 * 4096
      .ok [byte (val / 65536)]
    | _, _ => .error .CorruptInputError
  | [c0, c1, c2] =>
    match decodeChar c0, decodeChar c1, decodeChar c2 with
    | some d0, some d1, some d2 =>
      let val := d0 * 262144 + d1 * 4096 + d2 * 64
      .ok [byte (val / 65536), byte (val / 256)]
    | _, _, _ => .error .CorruptInputError
  | c0 :: c1 :: c2 :: c3 :: rest =>
    match decodeChar c0, decodeChar c1, decodeChar c2, decodeChar c3 with
    | some d0, some d1, some d2, some d3 =>
      let val := d0 * 262144 + d1 * 4096 + d2 * 64 + d3
      match Decode rest with
      | .ok out => .ok (byte (val / 65536) :: byte (val / 256) :: byte val :: out)
      | .error e => .error e
    | _, _, _, _ => .error .CorruptInputError

/-- Go `io.ReadAll(base64.NewDecoder(base64.RawURLEncoding, strings.NewReader(s)))`:
the decoder's reader drops every `\r` and `\n`, the rest is decoded. -/
def ReadAllDecoder (s : List Byte) : Except Error (List Byte) :=
  Decode (s.filter (fun c => decide (c ≠ 13 ∧ c ≠ 10)))

/-- State of a `base64.NewEncoder` stream: its sticky error, its sink and the
pending bytes (fewer than 3) not yet encoded. -/
structure encoder where
  err : Option Error
  w : Writer
  buf : List Byte

/-- Go `base64.NewEncoder(base64.RawURLEncoding, w)`. -/
def NewEncoder (w : Writer) : encoder := ⟨none, w, []⟩

/-- The loop of `encoder.Write` over the interior of `p`: while at least 3 bytes
remain, up to 768 of them (a multiple of 3) are encoded and written to the sink
in one `Write`; stops at the first error. Returns the error, the sink and the
bytes left. -/
def encoder.chunks : Nat → Writer → List Byte → Option Error × Writer × List Byte
  | 0, w, p => (none, w, p)
  | fuel + 1, w, p =>
    if 3 ≤ p.length then
      let nn := if 768 > p.length then p.length - p.length % 3 else 768
      let r := w.Write (Encode (p.take nn))
      match r.1.2 with
      | some e => (some e, r.2, p.drop nn)
      | none => encoder.chunks fuel r.2 (p.drop nn)
    else (none, w, p)

/-- Method `Write(p)` of the stream encoder; the error it returns is the `err`
field of the result. -/
def encoder.Write (e : encoder) (p : List Byte) : encoder :=
  match e.err with
  | some _ => e
  | none =>
    if e.buf.length > 0 then
      let i := min p.length (3 - e.buf.length)
      let buf := e.buf ++ p.take i
      if buf.length < 3 then ⟨none, e.w, buf⟩
      else
        let r := e.w.Write (Encode buf)
        match r.1.2 with
        | some err => ⟨some err, r.2, []⟩
        | none =>
          let c := encoder.chunks (p.length + 1) r.2 (p.drop i)
          match c.1 with
          | some err => ⟨some err, c.2.1, []⟩
          | none => ⟨none, c.2.1, c.2.2⟩
    else
      let c := encoder.chunks (p.length + 1) e.w p
      match c.1 with
      | some err => ⟨some err, c.2.1, []⟩
      | none => ⟨none, c.2.1, c.2.2⟩

/-- Method `Close()` of the stream encoder: flushes the pending bytes; the error
it returns is the `err` field of the result. -/
def encoder.Close (e : encoder) : encoder :=
  if e.err = none ∧ e.buf.length > 0 then
    let r := e.w.Write (Encode e.buf)
    ⟨r.1.2, r.2, []⟩
  else e

end Base64

/-! ## crypto/sha512 and crypto/ed25519 (standard library) -/

/-- Size constants of `crypto/ed25519`. -/
abbrev PublicKeySize : Nat := 32

abbrev PrivateKeySize : Nat := 64

abbrev SignatureSize : Nat := 64

/-- The signature primitive and the wide hash, taken as given.
* `sha512 m`: `sha512.New()`, the bytes `m` written to it, then `Sum(nil)`.
* `GenerateKey rand`: `ed25519.GenerateKey(rand)` as `(public, private)` or an error.
* `Sign priv digest`: `ed25519.Sign`.
* `Verify pub digest sig`: `ed25519.Verify`. -/
structure Primitive where
  sha512 : List Byte → Bytes 64
  GenerateKey : Reader → Except Error (Bytes PublicKeySize × Bytes PrivateKeySize)
  Sign : Bytes PrivateKeySize → List Byte → Bytes SignatureSize
  Verify : Bytes PublicKeySize → List Byte → Bytes SignatureSize → Bool

/-! ## common.go: constants -/

def PrefixSIG : List Byte := str "SIG:"

def PrefixPUB : List Byte := str "PUB:"

def PrefixKEY : List Byte := str "KEY:"

abbrev VersionOne : Byte := 1

abbrev sizeVersion : Nat := 1

/-! ## msignv1.go -/

abbrev sizeIDv1 : Nat := 6

abbrev sizeCheckv1 : Nat := 6

/-- Go type `KeyId` (a byte slice). -/
abbrev KeyId := List Byte

structure privateKeyV1 where
  id : Bytes sizeIDv1
  bytes : Bytes PrivateKeySize
  deriving DecidableEq

structure publicKeyV1 where
  id : Bytes sizeIDv1
  bytes : Bytes PublicKeySize
  deriving DecidableEq

structure signatureV1 where
  id : Bytes sizeIDv1
  bytes : Bytes SignatureSize
  deriving DecidableEq

/-- Go `make(KeyId, sizeIDv1)` followed by `copy(id, src)`. -/
def makeKeyId (src : List Byte) : KeyId := copyAt (List.replicate sizeIDv1 0) 0 src

/-- Method `Sign` of `*privateKeyV1`, with the message reader afterwards. -/
def privateKeyV1.Sign (P : Primitive) (p : privateKeyV1) (message : Option Reader) :
    Except Error signatureV1 × Option Reader :=
  match message with
  | none => (.error .ErrNilReader, none)
  | some m =>
    let c := ioCopy m
    match c.err with
    | some err => (.error err, some c.src)
    | none =>
      let sigbytes := P.Sign p.bytes (P.sha512 c.written).val
      (.ok ⟨copyArr sizeIDv1 p.id.val, copyArr SignatureSize sigbytes.val⟩, some c.src)

def privateKeyV1.Id (p : privateKeyV1) : KeyId := makeKeyId p.id.val

def privateKeyV1.Public (p : privateKeyV1) : publicKeyV1 :=
  ⟨copyArr sizeIDv1 p.id.val, copyArr PublicKeySize (p.bytes.val.drop 32)⟩

/-- The array `priv` that `privateKeyV1.export` fills and encodes. -/
def privateKeyV1.record (p : privateKeyV1) : List Byte :=
  let priv := List.replicate (sizeVersion + sizeCheckv1 + sizeIDv1 + PrivateKeySize) (0 : Byte)
  let priv := priv.set 0 VersionOne
  let priv := copyAt priv (sizeVersion + sizeCheckv1) p.id.val
  let priv := copyAt priv (sizeVersion + sizeCheckv1 + sizeIDv1) p.bytes.val
  let check := SHA256.Sum256 (priv.drop (sizeVersion + sizeCheckv1))
  copyAt priv sizeVersion (check.val.take sizeCheckv1)

/-- The common tail of the three `export` methods after the prefix was written:
encode `rec` through a fresh stream encoder, close it, write the newline. -/
def writeRecord (w : Writer) (rec : List Byte) : Option Error × Writer :=
  let be := (Base64.NewEncoder w).Write rec
  match be.err with
  | some err => (some err, be.w)
  | none =>
    let be := be.Close
    match be.err with
    | some err => (some err, be.w)
    | none =>
      let r := be.w.Write (str "\n")
      (r.1.2, r.2)

/-- Method `export` of `*privateKeyV1`: the returned error and the writer afterwards. -/
def privateKeyV1.export' (p : privateKeyV1) (w : Writer) : Option Error × Writer :=
  let r := w.Write PrefixKEY
  match r.1.2 with
  | some err => (some err, r.2)
  | none => writeRecord r.2 p.record

/-- Method `Verify` of `*publicKeyV1`, with the message reader afterwards. A nil
`Signature` is `none`; `*signatureV1` is the only concrete signature type. -/
def publicKeyV1.Verify (P : Primitive) (p : publicKeyV1) (message : Option Reader)
    (sign : Option signatureV1) : (Bool × Option Error) × Option Reader :=
  match message with
  | none => ((false, some .ErrNilReader), none)
  | some m =>
    match sign with
    | none => ((false, some .ErrInvalidSignature), some m)
    | some sig =>
      if ¬ (p.id.val = sig.id.val) then ((false, some .ErrKeyIdMismatch), some m)
      else
        let c := ioCopy m
        match c.err with
        | some err => ((false, some err), some c.src)
        | none => ((P.Verify p.bytes (P.sha512 c.written).val sig.bytes, none), some c.src)

def publicKeyV1.Id (p : publicKeyV1) : KeyId := makeKeyId p.id.val

/-- The array `pub` that `publicKeyV1.export` fills and encodes. -/
def publicKeyV1.record (p : publicKeyV1) : List Byte :=
  let pub := List.replicate (sizeVersion + sizeIDv1 + PublicKeySize) (0 : Byte)
  let pub := pub.set 0 VersionOne
  let pub := copyAt pub 1 p.id.val
  copyAt pub (1 + sizeIDv1) p.bytes.val

/-- Method `export` of `*publicKeyV1`: the returned error and the writer afterwards. -/
def publicKeyV1.export' (p : publicKeyV1) (w : Writer) : Option Error × Writer :=
  let r := w.Write PrefixPUB
  match r.1.2 with
  | some err => (some err, r.2)
  | none => writeRecord r.2 p.record

def signatureV1.KeyId (s : signatureV1) : KeyId := makeKeyId s.id.val

/-- The array `sigmsg` that `signatureV1.export` fills and encodes. -/
def signatureV1.record (s : signatureV1) : List Byte :=
  let sigmsg := List.replicate (sizeVersion + sizeCheckv1 + sizeIDv1 + SignatureSize) (0 : Byte)
  let sigmsg := sigmsg.set 0 VersionOne
  let sigmsg := copyAt sigmsg (sizeVersion + sizeCheckv1) s.id.val
  let sigmsg := copyAt sigmsg (sizeVersion + sizeCheckv1 + sizeIDv1) s.bytes.val
  let check := SHA256.Sum256 (sigmsg.drop (sizeVersion + sizeCheckv1))
  copyAt sigmsg sizeVersion (check.val.take sizeCheckv1)

/-- Method `export` of `*signatureV1`: the returned error and the writer afterwards. -/
def signatureV1.export' (s : signatureV1) (w : Writer) : Option Error × Writer :=
  let r := w.Write PrefixSIG
  match r.1.2 with
  | some err => (some err, r.2)
  | none => writeRecord r.2 s.record

/-- Go slice expression `s[lo:hi]`. -/
def slice (s : List Byte) (lo hi : Nat) : List Byte := (s.take hi).drop lo

def getPublicKeyV1 (pub : List Byte) : Except Error publicKeyV1 :=
  if pub.length < sizeVersion + sizeCheckv1 + PublicKeySize then .error .ErrInvalidPubFormat
  else if pub.head? ≠ some VersionOne then .error .ErrInvalidPubFormat
  else
    let publicKey : publicKeyV1 :=
      ⟨copyArr sizeIDv1 (slice pub 1 (1 + sizeIDv1)), copyArr PublicKeySize (pub.drop (1 + sizeIDv1))⟩
    let check := SHA256.Sum256 (pub.drop (sizeVersion + sizeCheckv1))
    if ¬ (check.val.take sizeCheckv1 = slice pub sizeVersion (sizeVersion + sizeCheckv1)) then
      .error .ErrInvalidKeyFormat
    else .ok publicKey

def getPrivateKeyV1 (priv : List Byte) : Except Error privateKeyV1 :=
  if priv.length < sizeVersion + sizeCheckv1 + sizeIDv1 + PrivateKeySize then
    .error .ErrInvalidKeyFormat
  else if priv.head? ≠ some VersionOne then .error .ErrInvalidKeyFormat
  else
    let privateKey : privateKeyV1 :=
      ⟨copyArr sizeIDv1
          (slice priv (sizeVersion + sizeCheckv1) (sizeVersion + sizeCheckv1 + sizeIDv1)),
       copyArr PrivateKeySize (priv.drop (sizeVersion + sizeCheckv1 + sizeIDv1))⟩
    let check := SHA256.Sum256 (priv.drop (sizeVersion + sizeCheckv1))
    if ¬ (check.val.take sizeCheckv1 = slice priv sizeVersion (sizeVersion + sizeCheckv1)) then
      .error .ErrInvalidKeyFormat
    else .ok privateKey

def getSignatureV1 (sign : List Byte) : Except Error signatureV1 :=
  if sign.length < sizeVersion + sizeCheckv1 + sizeIDv1 + SignatureSize then
    .error .ErrInvalidSigFormat
  else if sign.head? ≠ some VersionOne then .error .ErrInvalidSigFormat
  else
    let signature : signatureV1 :=
      ⟨copyArr sizeIDv1
          (slice sign (sizeVersion + sizeCheckv1) (sizeVersion + sizeCheckv1 + sizeIDv1)),
       copyArr SignatureSize (sign.drop (sizeVersion + sizeCheckv1 + sizeIDv1))⟩
    let check := SHA256.Sum256 (sign.drop (sizeVersion + sizeCheckv1))
    if ¬ (check.val.take sizeCheckv1 = slice sign sizeVersion (sizeVersion + sizeCheckv1)) then
      .error .ErrInvalidSigFormat
    else .ok signature

/-- Go `newPrivateKeyV1`, with the entropy source `rand.Reader` as an argument. -/
def newPrivateKeyV1 (P : Primitive) (rand : Reader) : Except Error (privateKeyV1 × publicKeyV1) :=
  match P.GenerateKey rand with
  | .error err => .error err
  | .ok (pub, priv) =>
    let id := SHA256.Sum256 pub.val
    .ok (⟨copyArr sizeIDv1 (id.val.take sizeIDv1), copyArr PrivateKeySize priv.val⟩,
         ⟨copyArr sizeIDv1 (id.val.take sizeIDv1), copyArr PublicKeySize pub.val⟩)

/-! ## common.go: functions -/

def NewPrivateKey (P : Primitive) (rand : Reader) : Except Error (privateKeyV1 × publicKeyV1) :=
  newPrivateKeyV1 P rand

/-- Go `strings.TrimPrefix(line, p)`. -/
def TrimPrefix (line p : List Byte) : List Byte :=
  if p.isPrefixOf line then line.drop p.length else line

def ImportPublicKey (r : Option Reader) : Except Error publicKeyV1 :=
  match r with
  | none => .error .ErrNilReader
  | some r =>
    match ReadString r 10 with
    | .error err => .error err
    | .ok line =>
      if ¬ PrefixPUB.isPrefixOf line then .error .ErrInvalidPubFormat
      else
        match Base64.ReadAllDecoder ( TrimPrefix line PrefixPUB) with
        | .error err => .error err
        | .ok pub =>
          if pub.length > sizeVersion ∧ pub.head? = some VersionOne then getPublicKeyV1 pub
          else .error .ErrInvalidPubFormat

def ImportPrivateKey (r : Option Reader) : Except Error privateKeyV1 :=
  match r with
  | none => .error .ErrNilReader
  | some r =>
    match ReadString r 10 with
    | .error err => .error err
    | .ok line =>
      if ¬ PrefixKEY.isPrefixOf line then .error .ErrInvalidKeyFormat
      else
        match Base64.ReadAllDecoder ( TrimPrefix line PrefixKEY) with
        | .error err => .error err
        | .ok key =>
          if key.length > sizeVersion ∧ key.head? = some VersionOne then getPrivateKeyV1 key
          else .error .ErrInvalidKeyFormat

def ImportSignature (r : Option Reader) : Except Error signatureV1 :=
  match r with
  | none => .error .ErrNilReader
  | some r =>
    match ReadString r 10 with
    | .error err => .error err
    | .ok line =>
      if ¬ PrefixSIG.isPrefixOf line then .error .ErrInvalidSigFormat
      else
        match Base64.ReadAllDecoder ( TrimPrefix line PrefixSIG) with
        | .error err => .error err
        | .ok sig =>
          if sig.length > sizeVersion ∧ sig.head? = some VersionOne then getSignatureV1 sig
          else .error .ErrInvalidSigFormat

/-- The dynamic value passed to `Export` as `item any`: one of the three
artifact kinds, or anything else (nil included). -/
inductive Item where
  | PublicKey (i : publicKeyV1)
  | PrivateKey (i : privateKeyV1)
  | Signature (i : signatureV1)
  | other

/-- Go `Export`: the returned error and the writer afterwards (nil stays nil). -/
def Export (w : Option Writer) (item : Item) : Option Error × Option Writer :=
  match w with
  | none => (some .ErrNilWriter, none)
  | some w =>
    match item with
    | .PublicKey i => let r := i.export' w; (r.1, some r.2)
    | .PrivateKey i => let r := i.export' w; (r.1, some r.2)
    | .Signature i => let r := i.export' w; (r.1, some r.2)
    | .other => (some .ErrUnknownType, some w)

/-! ## Test vectors of common_test.go -/

def testPrivateKey : List Byte :=
  str "KEY:Aef8KiD8bThuQYp3yj8fa9UXgTjCrsEPBmI-fdmdzJqFOG66u2Jt7-2W9v8CBoVotJnc96GlXwmXEoTTXEV2KXW1J-ywL3e6Xd9vMV8\n"

def testPublicKey : List Byte :=
  str "PUB:AThuQYp3ygaFaLSZ3PehpV8JlxKE01xFdil1tSfssC93ul3fbzFf\n"

def testSignature : List Byte :=
  str "SIG:AfX-JaGE2ThuQYp3yj5lhD628lINWXhOy0FW3EH4fFxe75_vO5ikhMY1JJdnDiOJoUcg7R5-yD1cRza8jR3g-A6dB1jNUVTQSwaopQk\n"

/-- A stand-in for the primitive, used only to instantiate theorems at concrete
inputs: the digest is the message cut or zero-filled to 64 bytes, the key pair is
cut from the entropy bytes, a signature is the digest itself and verification
compares the signature with the digest. -/
def demoPrimitive : Primitive where
  sha512 := fun m => copyArr 64 m
  GenerateKey := fun rand => .ok (copyArr PublicKeySize rand.data, copyArr PrivateKeySize rand.data)
  Sign := fun _ d => copyArr SignatureSize d
  Verify := fun _ d s => decide (s = copyArr SignatureSize d)

/-! ## Concrete inputs -/

/-- The 39 bytes that `testPublicKey` decodes to. -/
def testPublicKeyRecord : List Byte :=
  [0x01, 0x38, 0x6e, 0x41, 0x8a, 0x77, 0xca, 0x06, 0x85, 0x68, 0xb4, 0x99, 0xdc, 0xf7, 0xa1, 0xa5,
   0x5f, 0x09, 0x97, 0x12, 0x84, 0xd3, 0x5c, 0x45, 0x76, 0x29, 0x75, 0xb5, 0x27, 0xec, 0xb0, 0x2f,
   0x77, 0xba, 0x5d, 0xdf, 0x6f, 0x31, 0x5f]

/-- The record of `testPublicKey` with its last key byte changed from 0x5f to 0x60. -/
def tamperedPublicKeyRecord : List Byte :=
  [0x01, 0x38, 0x6e, 0x41, 0x8a, 0x77, 0xca, 0x06, 0x85, 0x68, 0xb4, 0x99, 0xdc, 0xf7, 0xa1, 0xa5,
   0x5f, 0x09, 0x97, 0x12, 0x84, 0xd3, 0x5c, 0x45, 0x76, 0x29, 0x75, 0xb5, 0x27, 0xec, 0xb0, 0x2f,
   0x77, 0xba, 0x5d, 0xdf, 0x6f, 0x31, 0x60]

/-- The public key that `testPublicKey` holds. -/
def testPublicKeyV1 : publicKeyV1 :=
  ⟨⟨[0x38, 0x6e, 0x41, 0x8a, 0x77, 0xca], rfl⟩,
   ⟨[0x06, 0x85, 0x68, 0xb4, 0x99, 0xdc, 0xf7, 0xa1, 0xa5, 0x5f, 0x09, 0x97, 0x12, 0x84, 0xd3, 0x5c,
     0x45, 0x76, 0x29, 0x75, 0xb5, 0x27, 0xec, 0xb0, 0x2f, 0x77, 0xba, 0x5d, 0xdf, 0x6f, 0x31, 0x5f],
    rfl⟩⟩

/-- The base64 body of `testPrivateKey`. -/
def testPrivateKeyBody : List Byte :=
  str "Aef8KiD8bThuQYp3yj8fa9UXgTjCrsEPBmI-fdmdzJqFOG66u2Jt7-2W9v8CBoVotJnc96GlXwmXEoTTXEV2KXW1J-ywL3e6Xd9vMV8"

/-- The 77 bytes that `testPrivateKey` decodes to. -/
def testPrivateKeyRecord : List Byte :=
  [0x01, 0xe7, 0xfc, 0x2a, 0x20, 0xfc, 0x6d, 0x38, 0x6e, 0x41, 0x8a, 0x77, 0xca, 0x3f, 0x1f, 0x6b,
   0xd5, 0x17, 0x81, 0x38, 0xc2, 0xae, 0xc1, 0x0f, 0x06, 0x62, 0x3e, 0x7d, 0xd9, 0x9d, 0xcc, 0x9a,
   0x85, 0x38, 0x6e, 0xba, 0xbb, 0x62, 0x6d, 0xef, 0xed, 0x96, 0xf6, 0xff, 0x02, 0x06, 0x85, 0x68,
   0xb4, 0x99, 0xdc, 0xf7, 0xa1, 0xa5, 0x5f, 0x09, 0x97, 0x12, 0x84, 0xd3, 0x5c, 0x45, 0x76, 0x29,
   0x75, 0xb5, 0x27, 0xec, 0xb0, 0x2f, 0x77, 0xba, 0x5d, 0xdf, 0x6f, 0x31, 0x5f]

/-- A line of `common_test.go` without any tag (`testBadPublicKey_3`). -/
def testBadPublicKey_3 : List Byte :=
  str "AThuQYp3ygaFaLSZ3PehpV8JlxKE01xFdil1tSfssC93ul3fbzFf\n"

/-- The private key with id 000000000000 and 64 zero key bytes. -/
def zeroPrivateKey : privateKeyV1 := ⟨Bytes.zero 6, Bytes.zero 64⟩

/-- The public key with id 000000000000 and 32 zero key bytes. -/
def zeroPublicKey : publicKeyV1 := ⟨Bytes.zero 6, Bytes.zero 32⟩

/-- The signature with key id 000000000000 and 64 zero signature bytes. -/
def zeroSignature : signatureV1 := ⟨Bytes.zero 6, Bytes.zero 64⟩

/-- The text of `zeroPrivateKey`: version 1, checksum 82fcfd521517, zeros. -/
def zeroPrivateKeyLine : List Byte :=
  str "KEY:AYL8_VIVFwAAAAAAAAAAAAAAAAAAAAAAAAAAAAAAAAAAAAAAAAAAAAAAAAAAAAAAAAAAAAAAAAAAAAAAAAAAAAAAAAAAAAAAAAAAAAA\n"

/-- The text of `zeroPublicKey`: version 1, zeros. -/
def zeroPublicKeyLine : List Byte :=
  str "PUB:AQAAAAAAAAAAAAAAAAAAAAAAAAAAAAAAAAAAAAAAAAAAAAAAAAAA\n"

/-- The key pair that `demoPrimitive` generates from an empty entropy stream:
zero key bytes, id 66687aadf862 (SHA-256 of 32 zero bytes starts so). -/
def demoPrivateKey : privateKeyV1 := ⟨⟨[0x66, 0x68, 0x7a, 0xad, 0xf8, 0x62], rfl⟩, Bytes.zero 64⟩

def demoPublicKey : publicKeyV1 := ⟨⟨[0x66, 0x68, 0x7a, 0xad, 0xf8, 0x62], rfl⟩, Bytes.zero 32⟩

/-- The message of `TestWholeSigningProcess`. -/
def helloWorld : Reader := NewReader (str "Hello World!")

/-- A line of `common_test.go` without its final newline (`testBadPublicKey_1`). -/
def testBadPublicKey_1 : List Byte :=
  str "PUB:AThuQYp3ygaFaLSZ3PehpV8JlxKE01xFdil1tSfssC93ul3fbzFf"

/-- The base64 body and newline of `testBadPublicKey_5`, a line of `common_test.go`
with characters cut out of the body. -/
def testBadPublicKey_5_rest : List Byte :=
  str "AThuQYp3ygaFaLSZ3PehpV8dil1tSfssC93ul3fbzFf\n"

/-- The 32 bytes that the body of `testBadPublicKey_5` decodes to. -/
def testBadPublicKey_5_record : List Byte :=
  [0x01, 0x38, 0x6e, 0x41, 0x8a, 0x77, 0xca, 0x06, 0x85, 0x68, 0xb4, 0x99, 0xdc, 0xf7, 0xa1, 0xa5,
   0x5f, 0x1d, 0x8a, 0x5d, 0x6d, 0x49, 0xfb, 0x2c, 0x0b, 0xdd, 0xee, 0x97, 0x77, 0xdb, 0xcc, 0x57]

/-- `testPublicKey` with the third byte of its record changed from 0x6e to 0x6f
(fourth body character `u` replaced by `v`): the key id no longer matches. -/
def wrongIdPublicKeyLine : List Byte :=
  str "PUB:AThvQYp3ygaFaLSZ3PehpV8JlxKE01xFdil1tSfssC93ul3fbzFf\n"

/-- A body in padded base64 (`AQ==`), which `RawURLEncoding` does not accept. -/
def paddedRest : List Byte := str "AQ==\n"

/-- The private key that `testPrivateKey` holds. -/
def testPrivateKeyV1 : privateKeyV1 :=
  ⟨⟨[0x38, 0x6e, 0x41, 0x8a, 0x77, 0xca], rfl⟩,
   ⟨[0x3f, 0x1f, 0x6b, 0xd5, 0x17, 0x81, 0x38, 0xc2, 0xae, 0xc1, 0x0f, 0x06, 0x62, 0x3e, 0x7d, 0xd9,
     0x9d, 0xcc, 0x9a, 0x85, 0x38, 0x6e, 0xba, 0xbb, 0x62, 0x6d, 0xef, 0xed, 0x96, 0xf6, 0xff, 0x02,
     0x06, 0x85, 0x68, 0xb4, 0x99, 0xdc, 0xf7, 0xa1, 0xa5, 0x5f, 0x09, 0x97, 0x12, 0x84, 0xd3, 0x5c,
     0x45, 0x76, 0x29, 0x75, 0xb5, 0x27, 0xec, 0xb0, 0x2f, 0x77, 0xba, 0x5d, 0xdf, 0x6f, 0x31, 0x5f],
    rfl⟩⟩

/-- `testPrivateKey` with its last body character `8` replaced by `9`: the two
lowest bits of that character are not part of the 77 bytes. -/
def nonCanonicalPrivateKeyLine : List Byte :=
  str "KEY:Aef8KiD8bThuQYp3yj8fa9UXgTjCrsEPBmI-fdmdzJqFOG66u2Jt7-2W9v8CBoVotJnc96GlXwmXEoTTXEV2KXW1J-ywL3e6Xd9vMV9\n"

/-- A private-key line whose record has 78 bytes: version 1, checksum
0805dcdc42ca (SHA-256 of 71 zero bytes starts so), 71 zero bytes. -/
def longPrivateKeyLine : List Byte :=
  str "KEY:AQgF3NxCygAAAAAAAAAAAAAAAAAAAAAAAAAAAAAAAAAAAAAAAAAAAAAAAAAAAAAAAAAAAAAAAAAAAAAAAAAAAAAAAAAAAAAAAAAAAAAA\n"

/-- The base64 body of `testPublicKey`. -/
def testPublicKeyBody : List Byte :=
  str "AThuQYp3ygaFaLSZ3PehpV8JlxKE01xFdil1tSfssC93ul3fbzFf"

/-- The body of `testPublicKey` without its last 3 characters (49 are left). -/
def truncatedPublicKeyBody : List Byte :=
  str "AThuQYp3ygaFaLSZ3PehpV8JlxKE01xFdil1tSfssC93ul3fb"

/-- The body of `testBadPublicKey_5`: that of `testPublicKey` without the 9
characters `JlxKE01xF` (43 are left). -/
def testBadPublicKey_5_body : List Byte :=
  str "AThuQYp3ygaFaLSZ3PehpV8dil1tSfssC93ul3fbzFf"

/-! ## Lemmas on slices and arrays -/

theorem length_copyAt (dst : List Byte) (off : Nat) (src : List Byte) :
    (copyAt dst off src).length = dst.length := by
  simp only [copyAt, List.length_append, List.length_take, List.length_drop]
  omega

/-- Copying over the middle part of a slice replaces exactly that part. -/
theorem copyAt_mid (a b c src : List Byte) (off : Nat) (hoff : off = a.length)
    (h : b.length = src.length) : copyAt (a ++ b ++ c) off src = a ++ src ++ c := by
  subst hoff
  have h1 : (a ++ b ++ c).take a.length = a := by
    rw [List.append_assoc, List.take_left]
  have h2 : src.take ((a ++ b ++ c).length - a.length) = src :=
    List.take_of_length_le (by simp only [List.length_append]; omega)
  have h3 : (a ++ b ++ c).drop (a.length + src.length) = c := by
    have : a.length + src.length = (a ++ b).length := by
      simp only [List.length_append]; omega
    rw [this, List.drop_left]
  simp only [copyAt, h1, h2, h3]

/-- Copying a slice of the array's length into a zero array gives that slice. -/
theorem copyArr_val (n : Nat) (src : List Byte) (h : src.length = n) :
    (copyArr n src).val = src := by
  have := copyAt_mid [] (List.replicate n 0) [] src 0 rfl (by simp [h])
  simpa [copyArr] using this

theorem copyArr_eq {n : Nat} (b : Bytes n) : copyArr n b.val = b :=
  Subtype.ext (copyArr_val n b.val b.property)

/-- Copying a longer slice into a zero array keeps its first `n` bytes. -/
theorem copyArr_val_take (n : Nat) (src : List Byte) (h : n ≤ src.length) :
    (copyArr n src).val = src.take n := by
  simp only [copyArr, copyAt, List.take_zero, List.length_replicate, Nat.sub_zero, List.nil_append,
    Nat.zero_add]
  rw [List.drop_eq_nil_of_le (by simp only [List.length_replicate]; exact h), List.append_nil]

/-! ## Binary layout of the records -/

/-- A zero array of 77 bytes with the version byte set, split into its fields. -/
theorem zero77_fields :
    (List.replicate (sizeVersion + sizeCheckv1 + sizeIDv1 + 64) (0 : Byte)).set 0 VersionOne
      = [VersionOne] ++ List.replicate 6 0 ++ List.replicate 6 0 ++ List.replicate 64 0 := by
  decide

/-- A zero array of 39 bytes with the version byte set, split into its fields. -/
theorem zero39_fields :
    (List.replicate (sizeVersion + sizeIDv1 + PublicKeySize) (0 : Byte)).set 0 VersionOne
      = [VersionOne] ++ List.replicate 6 0 ++ List.replicate 32 0 := by
  decide

/-- The filling steps shared by the private-key and signature records. -/
theorem checked_fields (id payload : List Byte) (hid : id.length = 6)
    (hp : payload.length = 64) :
    (let r := [VersionOne] ++ List.replicate 6 0 ++ List.replicate 6 0 ++ List.replicate 64 0
     let r := copyAt r (sizeVersion + sizeCheckv1) id
     let r := copyAt r (sizeVersion + sizeCheckv1 + sizeIDv1) payload
     let check := SHA256.Sum256 (r.drop (sizeVersion + sizeCheckv1))
     copyAt r sizeVersion (check.val.take sizeCheckv1))
      = [VersionOne] ++ (SHA256.Sum256 (id ++ payload)).val.take 6 ++ id ++ payload := by
  have e1 : copyAt ([VersionOne] ++ List.replicate 6 0 ++ List.replicate 6 0 ++ List.replicate 64 0)
      (sizeVersion + sizeCheckv1) id
      = [VersionOne] ++ List.replicate 6 0 ++ id ++ List.replicate 64 0 :=
    copyAt_mid _ _ _ _ _ rfl (by simp [hid])
  have e2 : copyAt ([VersionOne] ++ List.replicate 6 0 ++ id ++ List.replicate 64 0)
      (sizeVersion + sizeCheckv1 + sizeIDv1) payload
      = [VersionOne] ++ List.replicate 6 0 ++ id ++ payload := by
    have := copyAt_mid ([VersionOne] ++ List.replicate 6 0 ++ id) (List.replicate 64 0) []
      payload (sizeVersion + sizeCheckv1 + sizeIDv1) (by simp [hid]; rfl) (by simp [hp])
    simpa using this
  have e3 : ([VersionOne] ++ List.replicate 6 0 ++ id ++ payload).drop (sizeVersion + sizeCheckv1)
      = id ++ payload := by
    have : sizeVersion + sizeCheckv1 = ([VersionOne] ++ List.replicate 6 (0 : Byte)).length := rfl
    rw [List.append_assoc, this, List.drop_left]
  have hc : ((SHA256.Sum256 (id ++ payload)).val.take sizeCheckv1).length = 6 := by
    simp [(SHA256.Sum256 (id ++ payload)).property]; decide
  have e4 : copyAt ([VersionOne] ++ List.replicate 6 0 ++ id ++ payload) sizeVersion
      ((SHA256.Sum256 (id ++ payload)).val.take sizeCheckv1)
      = [VersionOne] ++ (SHA256.Sum256 (id ++ payload)).val.take 6 ++ id ++ payload := by
    have := copyAt_mid [VersionOne] (List.replicate 6 0) (id ++ payload)
      ((SHA256.Sum256 (id ++ payload)).val.take sizeCheckv1) sizeVersion rfl (by simp [hc])
    simpa [List.append_assoc] using this
  simp only [e1, e2, e3, e4]

theorem key_record_eq (p : privateKeyV1) :
    p.record = [VersionOne] ++ (SHA256.Sum256 (p.id.val ++ p.bytes.val)).val.take 6
      ++ p.id.val ++ p.bytes.val := by
  have := checked_fields p.id.val p.bytes.val p.id.property p.bytes.property
  simp only [privateKeyV1.record, zero77_fields]
  exact this

theorem sig_record_eq (s : signatureV1) :
    s.record = [VersionOne] ++ (SHA256.Sum256 (s.id.val ++ s.bytes.val)).val.take 6
      ++ s.id.val ++ s.bytes.val := by
  have := checked_fields s.id.val s.bytes.val s.id.property s.bytes.property
  simp only [signatureV1.record, zero77_fields]
  exact this

theorem pub_record_eq (p : publicKeyV1) :
    p.record = [VersionOne] ++ p.id.val ++ p.bytes.val := by
  have e1 : copyAt ([VersionOne] ++ List.replicate 6 0 ++ List.replicate 32 0) 1 p.id.val
      = [VersionOne] ++ p.id.val ++ List.replicate 32 0 :=
    copyAt_mid _ _ _ _ _ rfl (by simp [p.id.property])
  have e2 : copyAt ([VersionOne] ++ p.id.val ++ List.replicate 32 0) (1 + sizeIDv1) p.bytes.val
      = [VersionOne] ++ p.id.val ++ p.bytes.val := by
    have := copyAt_mid ([VersionOne] ++ p.id.val) (List.replicate 32 0) []
      p.bytes.val (1 + sizeIDv1) (by simp [p.id.property]; rfl) (by simp [p.bytes.property])
    simpa using this
  simp only [publicKeyV1.record, zero39_fields, e1, e2]

/-! ## Base64: decoding inverts encoding -/

namespace Base64

theorem decodeChar_table : ∀ k : Fin 64, decodeChar (encodeURL.getD k.val 0) = some k.val := by
  decide

theorem decodeChar_encodeChar (v : Nat) : decodeChar (encodeChar v) = some (v % 64) :=
  decodeChar_table ⟨v % 64, Nat.mod_lt v (by decide)⟩

/-- No character of the alphabet is `\r`, `\n` or `=`. -/
theorem encodeChar_table :
    ∀ k : Fin 64, encodeURL.getD k.val 0 ≠ 13 ∧ encodeURL.getD k.val 0 ≠ 10
      ∧ encodeURL.getD k.val 0 ≠ 61 := by
  decide

theorem encodeChar_plain (v : Nat) :
    encodeChar v ≠ 13 ∧ encodeChar v ≠ 10 ∧ encodeChar v ≠ 61 :=
  encodeChar_table ⟨v % 64, Nat.mod_lt v (by decide)⟩

/-- Every character of an encoding is an alphabet character. -/
theorem mem_Encode : ∀ (l : List Byte) (c : Byte), c ∈ Encode l → ∃ v, c = encodeChar v
  | [], c, h => by simp [Encode] at h
  | [_], c, h => by
    simp only [Encode, List.mem_cons, List.mem_singleton, List.not_mem_nil, or_false] at h
    rcases h with h | h <;> exact ⟨_, h⟩
  | [_, _], c, h => by
    simp only [Encode, List.mem_cons, List.mem_singleton, List.not_mem_nil, or_false] at h
    rcases h with h | h | h <;> exact ⟨_, h⟩
  | _ :: _ :: _ :: rest, c, h => by
    simp only [Encode, List.mem_cons] at h
    rcases h with h | h | h | h | h
    · exact ⟨_, h⟩
    · exact ⟨_, h⟩
    · exact ⟨_, h⟩
    · exact ⟨_, h⟩
    · exact mem_Encode rest c h

theorem Decode_Encode : ∀ l : List Byte, Decode (Encode l) = .ok l
  | [] => rfl
  | [a] => by
    simp only [Encode, Decode, decodeChar_encodeChar]
    congr 2
    apply Fin.ext
    simp only [byte]
    omega
  | [a, b] => by
    simp only [Encode, Decode, decodeChar_encodeChar]
    congr 2
    · apply Fin.ext
      simp only [byte]
      omega
    · congr 1
      apply Fin.ext
      simp only [byte]
      omega
  | a :: b :: c :: rest => by
    have ih := Decode_Encode rest
    simp only [Encode, Decode, decodeChar_encodeChar, ih]
    congr 2
    · apply Fin.ext
      simp only [byte]
      omega
    · congr 1
      · apply Fin.ext
        simp only [byte]
        omega
      · congr 1
        apply Fin.ext
        simp only [byte]
        omega

/-- The decoder's newline filter leaves an encoding unchanged. -/
theorem filter_Encode (l : List Byte) :
    (Encode l).filter (fun c => decide (c ≠ 13 ∧ c ≠ 10)) = Encode l := by
  rw [List.filter_eq_self]
  intro c hc
  obtain ⟨v, rfl⟩ := mem_Encode l c hc
  have := encodeChar_plain v
  simp only [decide_eq_true_eq]
  exact ⟨this.1, this.2.1⟩

/-- Reading an encoding followed by a newline back through the stream decoder. -/
theorem ReadAllDecoder_Encode (l : List Byte) :
    ReadAllDecoder (Encode l ++ str "\n") = .ok l := by
  have hnl : (str "\n").filter (fun c => decide (c ≠ 13 ∧ c ≠ 10)) = [] := by decide
  rw [ReadAllDecoder, List.filter_append, filter_Encode, hnl, List.append_nil, Decode_Encode]

/-- Encoding a multiple of 3 bytes and then the rest is encoding the whole. -/
theorem Encode_take_drop : ∀ (k : Nat) (p : List Byte),
    Encode (p.take (3 * k)) ++ Encode (p.drop (3 * k)) = Encode p
  | 0, p => by simp [Encode]
  | k + 1, [] => by simp [Encode]
  | k + 1, [a] => by simp [Encode]
  | k + 1, [a, b] => by
    have : 3 * (k + 1) = (3 * k + 1) + 2 := by omega
    simp [Encode, this]
  | k + 1, a :: b :: c :: rest => by
    have : 3 * (k + 1) = 3 * k + 1 + 1 + 1 := by omega
    have ih := Encode_take_drop k rest
    simp only [this, List.take_succ_cons, List.drop_succ_cons, Encode, List.cons_append,
      List.cons.injEq, true_and]
    exact ih

end Base64

/-! ## The stream encoder on a record -/

namespace Base64

/-- With fewer than 3 bytes left the interior loop writes nothing. -/
theorem chunks_short (fuel : Nat) (w : Writer) (p : List Byte) (h : p.length < 3) :
    encoder.chunks fuel w p = (none, w, p) := by
  cases fuel with
  | zero => rfl
  | succ n =>
    have : ¬ 3 ≤ p.length := by omega
    simp only [encoder.chunks, this, if_false]

/-- One `Write` of a record of 3 to 767 bytes on a fresh encoder: a single write
to the sink of the encoding of the largest multiple of 3 bytes; the rest stays
pending. -/
theorem Write_fresh (w : Writer) (p : List Byte) (h3 : 3 ≤ p.length) (h : p.length < 768) :
    (NewEncoder w).Write p =
      match (w.Write (Encode (p.take (p.length - p.length % 3)))).1.2 with
      | some err => ⟨some err, (w.Write (Encode (p.take (p.length - p.length % 3)))).2, []⟩
      | none => ⟨none, (w.Write (Encode (p.take (p.length - p.length % 3)))).2,
          p.drop (p.length - p.length % 3)⟩ := by
  have h768 : 768 > p.length := h
  have hshort : (p.drop (p.length - p.length % 3)).length < 3 := by
    simp only [List.length_drop]; omega
  simp only [encoder.Write, NewEncoder, List.length_nil, gt_iff_lt, Nat.lt_irrefl, if_false,
    encoder.chunks, h3, if_true, h768]
  cases hw : (w.Write (Encode (p.take (p.length - p.length % 3)))).1.2 with
  | some err => simp
  | none => simp [chunks_short _ _ _ hshort]

/-- Writing a record of 3 to 767 bytes to a buffer appends its encoding and a newline. -/
theorem writeRecord_buffer (d p : List Byte) (h3 : 3 ≤ p.length) (h : p.length < 768) :
    writeRecord (.buffer d) p = (none, .buffer (d ++ Encode p ++ str "\n")) := by
  have hk : p.length - p.length % 3 = 3 * (p.length / 3) := by omega
  have henc := Encode_take_drop (p.length / 3) p
  rw [← hk] at henc
  simp only [writeRecord, Write_fresh _ p h3 h, Writer.Write, encoder.Close, true_and]
  by_cases hb : (p.drop (p.length - p.length % 3)).length > 0
  · simp only [hb, if_true, Writer.Write, List.append_assoc, henc]
  · have hnil : p.drop (p.length - p.length % 3) = [] := by
      apply List.eq_nil_of_length_eq_zero; omega
    rw [hnil, Encode, List.append_nil] at henc
    simp only [hb, if_false, Writer.Write, henc]

end Base64

theorem key_length_record (p : privateKeyV1) : p.record.length = 77 := by
  simp [key_record_eq, p.id.property, p.bytes.property,
    (SHA256.Sum256 (p.id.val ++ p.bytes.val)).property]
  rfl

theorem sig_length_record (s : signatureV1) : s.record.length = 77 := by
  simp [sig_record_eq, s.id.property, s.bytes.property,
    (SHA256.Sum256 (s.id.val ++ s.bytes.val)).property]
  rfl

theorem pub_length_record (p : publicKeyV1) : p.record.length = 39 := by
  simp [pub_record_eq, p.id.property, p.bytes.property]
  rfl

theorem key_export_buffer (p : privateKeyV1) (d : List Byte) :
    p.export' (.buffer d)
      = (none, .buffer (d ++ PrefixKEY ++ Base64.Encode p.record ++ str "\n")) := by
  have hl := key_length_record p
  simp only [privateKeyV1.export', Writer.Write]
  exact Base64.writeRecord_buffer _ _ (by omega) (by omega)

theorem sig_export_buffer (s : signatureV1) (d : List Byte) :
    s.export' (.buffer d)
      = (none, .buffer (d ++ PrefixSIG ++ Base64.Encode s.record ++ str "\n")) := by
  have hl := sig_length_record s
  simp only [signatureV1.export', Writer.Write]
  exact Base64.writeRecord_buffer _ _ (by omega) (by omega)

theorem pub_export_buffer (p : publicKeyV1) (d : List Byte) :
    p.export' (.buffer d)
      = (none, .buffer (d ++ PrefixPUB ++ Base64.Encode p.record ++ str "\n")) := by
  have hl := pub_length_record p
  simp only [publicKeyV1.export', Writer.Write]
  exact Base64.writeRecord_buffer _ _ (by omega) (by omega)

/-! ## Reading a line and importing a record -/

theorem str_newline : str "\n" = [10] := by decide

theorem ReadString_line (body tail : List Byte) (e : Error) (h : (10 : Byte) ∉ body) :
    ReadString ⟨body ++ 10 :: tail, e⟩ 10 = .ok (body ++ [10]) := by
  have hpos : ∀ a ∈ body, (fun c : Byte => decide (c ≠ 10)) a = true := by
    intro a ha
    simp only [decide_eq_true_eq]
    rintro rfl
    exact h ha
  simp only [ReadString, List.mem_append, List.mem_cons, true_or, or_true, if_true]
  rw [List.takeWhile_append_of_pos hpos]
  simp

/-- No newline inside a tag followed by an encoding. -/
theorem no_newline_body (tag rec : List Byte) (h : (10 : Byte) ∉ tag) :
    (10 : Byte) ∉ tag ++ Base64.Encode rec := by
  intro hmem
  rcases List.mem_append.mp hmem with h1 | h1
  · exact h h1
  · obtain ⟨v, hv⟩ := Base64.mem_Encode rec 10 h1
    exact (Base64.encodeChar_plain v).2.1 hv.symm

theorem TrimPrefix_append (p rest : List Byte) : TrimPrefix (p ++ rest) p = rest := by
  have : p.isPrefixOf (p ++ rest) = true := by
    rw [List.isPrefixOf_iff_prefix]; exact List.prefix_append p rest
  simp only [TrimPrefix, this, if_true, List.drop_left]

theorem ImportPrivateKey_line (r : Reader) (rest rec : List Byte)
    (hline : ReadString r 10 = .ok (PrefixKEY ++ rest))
    (hdec : Base64.ReadAllDecoder rest = .ok rec) :
    ImportPrivateKey (some r) =
      if rec.length > sizeVersion ∧ rec.head? = some VersionOne then getPrivateKeyV1 rec
      else .error .ErrInvalidKeyFormat := by
  have : PrefixKEY.isPrefixOf (PrefixKEY ++ rest) = true := by
    rw [List.isPrefixOf_iff_prefix]; exact List.prefix_append _ _
  simp only [ImportPrivateKey, hline, this, not_true_eq_false, if_false, TrimPrefix_append, hdec]

theorem ImportSignature_line (r : Reader) (rest rec : List Byte)
    (hline : ReadString r 10 = .ok (PrefixSIG ++ rest))
    (hdec : Base64.ReadAllDecoder rest = .ok rec) :
    ImportSignature (some r) =
      if rec.length > sizeVersion ∧ rec.head? = some VersionOne then getSignatureV1 rec
      else .error .ErrInvalidSigFormat := by
  have : PrefixSIG.isPrefixOf (PrefixSIG ++ rest) = true := by
    rw [List.isPrefixOf_iff_prefix]; exact List.prefix_append _ _
  simp only [ImportSignature, hline, this, not_true_eq_false, if_false, TrimPrefix_append, hdec]

theorem ImportPublicKey_line (r : Reader) (rest rec : List Byte)
    (hline : ReadString r 10 = .ok (PrefixPUB ++ rest))
    (hdec : Base64.ReadAllDecoder rest = .ok rec) :
    ImportPublicKey (some r) =
      if rec.length > sizeVersion ∧ rec.head? = some VersionOne then getPublicKeyV1 rec
      else .error .ErrInvalidPubFormat := by
  have : PrefixPUB.isPrefixOf (PrefixPUB ++ rest) = true := by
    rw [List.isPrefixOf_iff_prefix]; exact List.prefix_append _ _
  simp only [ImportPublicKey, hline, this, not_true_eq_false, if_false, TrimPrefix_append, hdec]

/-- The line `tag ++ base64(rec) ++ "\n"` read from a stream that holds it. -/
theorem ReadString_encoded (tag rec tail : List Byte) (e : Error) (h : (10 : Byte) ∉ tag) :
    ReadString ⟨tag ++ Base64.Encode rec ++ str "\n" ++ tail, e⟩ 10
      = .ok (tag ++ (Base64.Encode rec ++ str "\n")) := by
  have := ReadString_line (tag ++ Base64.Encode rec) tail e (no_newline_body tag rec h)
  simpa [str_newline, List.append_assoc] using this

/-- A slice that covers exactly the middle part of a list. -/
theorem slice_mid (a b c : List Byte) (lo hi : Nat) (hlo : lo = a.length)
    (hhi : hi = a.length + b.length) : slice (a ++ b ++ c) lo hi = b := by
  have h1 : (a ++ b ++ c).take hi = a ++ b :=
    List.take_left' (by simp only [List.length_append]; omega)
  rw [slice, h1, List.drop_left' hlo.symm]

/-! ## The record parsers on well-sized records -/

theorem getPrivateKeyV1_sized (rec : List Byte) (hlen : 77 ≤ rec.length)
    (hver : rec.head? = some VersionOne) :
    getPrivateKeyV1 rec =
      if (SHA256.Sum256 (rec.drop 7)).val.take 6 = slice rec 1 7 then
        .ok ⟨copyArr sizeIDv1 (slice rec 7 13), copyArr PrivateKeySize (rec.drop 13)⟩
      else .error .ErrInvalidKeyFormat := by
  have h1 : ¬ rec.length < sizeVersion + sizeCheckv1 + sizeIDv1 + PrivateKeySize := by
    show ¬ rec.length < 77
    omega
  simp only [getPrivateKeyV1, h1, if_false, hver, ne_eq, not_true_eq_false, ite_not]
  rfl

theorem getSignatureV1_sized (rec : List Byte) (hlen : 77 ≤ rec.length)
    (hver : rec.head? = some VersionOne) :
    getSignatureV1 rec =
      if (SHA256.Sum256 (rec.drop 7)).val.take 6 = slice rec 1 7 then
        .ok ⟨copyArr sizeIDv1 (slice rec 7 13), copyArr SignatureSize (rec.drop 13)⟩
      else .error .ErrInvalidSigFormat := by
  have h1 : ¬ rec.length < sizeVersion + sizeCheckv1 + sizeIDv1 + SignatureSize := by
    show ¬ rec.length < 77
    omega
  simp only [getSignatureV1, h1, if_false, hver, ne_eq, not_true_eq_false, ite_not]
  rfl

theorem getPublicKeyV1_sized (rec : List Byte) (hlen : 39 ≤ rec.length)
    (hver : rec.head? = some VersionOne) :
    getPublicKeyV1 rec =
      if (SHA256.Sum256 (rec.drop 7)).val.take 6 = slice rec 1 7 then
        .ok ⟨copyArr sizeIDv1 (slice rec 1 7), copyArr PublicKeySize (rec.drop 7)⟩
      else .error .ErrInvalidKeyFormat := by
  have h1 : ¬ rec.length < sizeVersion + sizeCheckv1 + PublicKeySize := by
    show ¬ rec.length < 39
    omega
  simp only [getPublicKeyV1, h1, if_false, hver, ne_eq, not_true_eq_false, ite_not]
  rfl

/-- The fields of a record `version ++ check ++ id ++ payload`. -/
theorem checked_record_fields (chk id payload : List Byte) (hc : chk.length = 6)
    (hid : id.length = 6) :
    slice ([VersionOne] ++ chk ++ id ++ payload) 1 7 = chk
      ∧ ([VersionOne] ++ chk ++ id ++ payload).drop 7 = id ++ payload
      ∧ slice ([VersionOne] ++ chk ++ id ++ payload) 7 13 = id
      ∧ ([VersionOne] ++ chk ++ id ++ payload).drop 13 = payload := by
  refine ⟨?_, ?_, ?_, ?_⟩
  · rw [List.append_assoc ([VersionOne] ++ chk)]
    exact slice_mid _ _ _ _ _ rfl (by simp [hc])
  · rw [List.append_assoc ([VersionOne] ++ chk)]
    exact List.drop_left' (by simp [hc])
  · exact slice_mid _ _ _ _ _ (by simp [hc]) (by simp [hc, hid])
  · exact List.drop_left' (by simp [hc, hid])

theorem getPrivateKeyV1_record (k : privateKeyV1) : getPrivateKeyV1 k.record = .ok k := by
  have hc : ((SHA256.Sum256 (k.id.val ++ k.bytes.val)).val.take 6).length = 6 := by
    simp [(SHA256.Sum256 (k.id.val ++ k.bytes.val)).property]
  obtain ⟨f1, f2, f3, f4⟩ := checked_record_fields _ k.id.val k.bytes.val hc k.id.property
  have hver : k.record.head? = some VersionOne := by rw [key_record_eq k]; rfl
  rw [getPrivateKeyV1_sized _ (by rw [key_length_record k]) hver, key_record_eq k, f1, f2, f3, f4]
  simp only [if_true, copyArr_eq]

theorem getSignatureV1_record (s : signatureV1) : getSignatureV1 s.record = .ok s := by
  have hc : ((SHA256.Sum256 (s.id.val ++ s.bytes.val)).val.take 6).length = 6 := by
    simp [(SHA256.Sum256 (s.id.val ++ s.bytes.val)).property]
  obtain ⟨f1, f2, f3, f4⟩ := checked_record_fields _ s.id.val s.bytes.val hc s.id.property
  have hver : s.record.head? = some VersionOne := by rw [sig_record_eq s]; rfl
  rw [getSignatureV1_sized _ (by rw [sig_length_record s]) hver, sig_record_eq s, f1, f2, f3, f4]
  simp only [if_true, copyArr_eq]

/-- The public-key parser on the record of a public key: it accepts exactly
when the key id is the truncated SHA-256 of the key bytes. -/
theorem getPublicKeyV1_record (p : publicKeyV1) :
    getPublicKeyV1 p.record =
      if (SHA256.Sum256 p.bytes.val).val.take 6 = p.id.val then .ok p
      else .error .ErrInvalidKeyFormat := by
  have f1 : slice ([VersionOne] ++ p.id.val ++ p.bytes.val) 1 7 = p.id.val :=
    slice_mid _ _ _ _ _ rfl (by simp [p.id.property]; rfl)
  have f2 : ([VersionOne] ++ p.id.val ++ p.bytes.val).drop 7 = p.bytes.val :=
    List.drop_left' (by simp [p.id.property])
  have hver : p.record.head? = some VersionOne := by rw [pub_record_eq p]; rfl
  rw [getPublicKeyV1_sized _ (by rw [pub_length_record p]) hver, pub_record_eq p, f1, f2]
  simp only [copyArr_eq]

/-! ## Signing and verification -/

/-- C1: for every key pair `(priv, pub)` returned by `NewPrivateKey` and every
message stream `m` that reads to its end without error, signing `m` succeeds and
verifying a stream with the same content against that signature returns
`(true, nil)`, provided the primitive verifies, with the generated public key,
what it signed with the generated private key. -/
theorem C1_sign_then_verify (P : Primitive) (rand m : Reader) (priv : privateKeyV1)
    (pub : publicKeyV1) (hgen : NewPrivateKey P rand = .ok (priv, pub)) (hm : m.err = .EOF)
    (hprim : ∀ rawpub rawpriv, P.GenerateKey rand = .ok (rawpub, rawpriv) →
      ∀ digest, P.Verify rawpub digest (P.Sign rawpriv digest) = true) :
    ∃ sig, (priv.Sign P (some m)).1 = .ok sig
      ∧ (pub.Verify P (some m) (some sig)).1 = (true, none) := by
  unfold NewPrivateKey newPrivateKeyV1 at hgen
  cases hg : P.GenerateKey rand with
  | error e => simp [hg] at hgen
  | ok pair =>
    obtain ⟨rawpub, rawpriv⟩ := pair
    simp only [hg, Except.ok.injEq, Prod.mk.injEq, copyArr_eq] at hgen
    obtain ⟨hpriv, hpub⟩ := hgen
    subst hpriv hpub
    have hv := hprim rawpub rawpriv hg (P.sha512 m.data).val
    refine ⟨⟨copyArr sizeIDv1 (copyArr sizeIDv1 ((SHA256.Sum256 rawpub.val).val.take sizeIDv1)).val,
      copyArr SignatureSize (P.Sign rawpriv (P.sha512 m.data).val).val⟩, ?_, ?_⟩
    · simp only [privateKeyV1.Sign, ioCopy, hm, if_true]
    · simp only [publicKeyV1.Verify, ioCopy, hm, if_true, copyArr_eq, not_true_eq_false,
        if_false, hv]

/-- C5: for every public key `p`, signature `s` with a different key id and
non-nil message stream `m` (whatever it would deliver, an error included),
`p.Verify(m, s)` returns `(false, ErrKeyIdMismatch)` and leaves `m` as it was:
nothing is read from it. -/
theorem C5_key_id_mismatch (P : Primitive) (p : publicKeyV1) (s : signatureV1) (m : Reader)
    (h : p.id ≠ s.id) :
    p.Verify P (some m) (some s) = ((false, some .ErrKeyIdMismatch), some m) := by
  have h1 : ¬ (p.id.val = s.id.val) := fun e => h (Subtype.ext e)
  simp only [publicKeyV1.Verify, h1, not_false_eq_true, if_true]

/-- C6: for every public key `p`, signature `s` with the same key id and
message stream `m` that reads to its end without error, `p.Verify(m, s)` returns
no error and the verdict of the primitive on `p`'s key bytes, the wide-hash
digest of the message and `s`'s signature bytes (so `(false, nil)` whenever the
primitive rejects); and with a nil signature and any non-nil message it returns
`ErrInvalidSignature`. -/
theorem C6_verify_verdict (P : Primitive) (p : publicKeyV1) (s : signatureV1) (m : Reader)
    (hid : p.id = s.id) (hm : m.err = .EOF) :
    (p.Verify P (some m) (some s)).1 = (P.Verify p.bytes (P.sha512 m.data).val s.bytes, none)
      ∧ (P.Verify p.bytes (P.sha512 m.data).val s.bytes = false →
          (p.Verify P (some m) (some s)).1 = (false, none))
      ∧ ∀ m2 : Reader, (p.Verify P (some m2) none).1 = (false, some .ErrInvalidSignature) := by
  have h1 : (p.Verify P (some m) (some s)).1
      = (P.Verify p.bytes (P.sha512 m.data).val s.bytes, none) := by
    simp only [publicKeyV1.Verify, hid, not_true_eq_false, if_false, ioCopy, hm, if_true]
  refine ⟨h1, ?_, ?_⟩
  · intro hf
    rw [h1, hf]
  · intro m2
    simp only [publicKeyV1.Verify]

/-! ## Export: layout and text -/

/-- C8: the record that export encodes is, for every private key and every
signature, exactly 77 bytes: the version byte 1, the first 6 bytes of
SHA-256(key id ‖ payload), the 6-byte key id and the 64 payload bytes; for every
public key it is exactly 39 bytes: the version byte 1, the 6-byte key id and the
32 key bytes. -/
theorem C8_record_layout (k : privateKeyV1) (s : signatureV1) (p : publicKeyV1) :
    (k.record = [VersionOne] ++ (SHA256.Sum256 (k.id.val ++ k.bytes.val)).val.take 6
        ++ k.id.val ++ k.bytes.val
      ∧ k.record.length = 77 ∧ ((SHA256.Sum256 (k.id.val ++ k.bytes.val)).val.take 6).length = 6)
    ∧ (s.record = [VersionOne] ++ (SHA256.Sum256 (s.id.val ++ s.bytes.val)).val.take 6
        ++ s.id.val ++ s.bytes.val
      ∧ s.record.length = 77 ∧ ((SHA256.Sum256 (s.id.val ++ s.bytes.val)).val.take 6).length = 6)
    ∧ (p.record = [VersionOne] ++ p.id.val ++ p.bytes.val ∧ p.record.length = 39) := by
  refine ⟨⟨key_record_eq k, key_length_record k, ?_⟩, ⟨sig_record_eq s, sig_length_record s, ?_⟩,
    ⟨pub_record_eq p, pub_length_record p⟩⟩
  · simp [(SHA256.Sum256 (k.id.val ++ k.bytes.val)).property]
  · simp [(SHA256.Sum256 (s.id.val ++ s.bytes.val)).property]

set_option maxRecDepth 10000 in
/-- The three tags hold neither `=` nor a newline. -/
theorem tags_plain :
    (∀ c ∈ str "KEY:", c ≠ 61 ∧ c ≠ 10) ∧ (∀ c ∈ str "PUB:", c ≠ 61 ∧ c ≠ 10)
      ∧ (∀ c ∈ str "SIG:", c ≠ 61 ∧ c ≠ 10) := by
  decide

/-- C9: on a buffer (a sink that accepts every write) `Export` returns no error
and appends exactly the tag of the artifact's type (`KEY:`, `PUB:`, `SIG:`), the
unpadded URL-safe base64 encoding of its record and one newline; neither `=`
(byte 61) nor a newline (byte 10) occurs before that final newline. -/
theorem C9_text_wrapping (k : privateKeyV1) (p : publicKeyV1) (s : signatureV1)
    (d : List Byte) :
    (Export (some (.buffer d)) (.PrivateKey k)
        = (none, some (.buffer (d ++ str "KEY:" ++ Base64.Encode k.record ++ str "\n")))
      ∧ ∀ c ∈ str "KEY:" ++ Base64.Encode k.record, c ≠ 61 ∧ c ≠ 10)
    ∧ (Export (some (.buffer d)) (.PublicKey p)
        = (none, some (.buffer (d ++ str "PUB:" ++ Base64.Encode p.record ++ str "\n")))
      ∧ ∀ c ∈ str "PUB:" ++ Base64.Encode p.record, c ≠ 61 ∧ c ≠ 10)
    ∧ (Export (some (.buffer d)) (.Signature s)
        = (none, some (.buffer (d ++ str "SIG:" ++ Base64.Encode s.record ++ str "\n")))
      ∧ ∀ c ∈ str "SIG:" ++ Base64.Encode s.record, c ≠ 61 ∧ c ≠ 10) := by
  have plain : ∀ (tag rec : List Byte), (∀ c ∈ tag, c ≠ 61 ∧ c ≠ 10) →
      ∀ c ∈ tag ++ Base64.Encode rec, c ≠ 61 ∧ c ≠ 10 := by
    intro tag rec htag c hc
    rcases List.mem_append.mp hc with h1 | h1
    · exact htag c h1
    · obtain ⟨v, rfl⟩ := Base64.mem_Encode rec c h1
      exact ⟨(Base64.encodeChar_plain v).2.2, (Base64.encodeChar_plain v).2.1⟩
  refine ⟨⟨?_, plain (str "KEY:") _ tags_plain.1⟩, ⟨?_, plain (str "PUB:") _ tags_plain.2.1⟩,
    ⟨?_, plain (str "SIG:") _ tags_plain.2.2⟩⟩
  · simp only [Export, key_export_buffer k]; rfl
  · simp only [Export, pub_export_buffer p]; rfl
  · simp only [Export, sig_export_buffer s]; rfl

/-! ## Round trips -/

/-- C2: for every private key `k` (any 6-byte id, any 64 key bytes)
`ImportPrivateKey` applied to the text that `Export` writes for `k` succeeds and
returns `k`; likewise for every signature `s` with `ImportSignature`. -/
theorem C2_roundtrip_checksummed (k : privateKeyV1) (s : signatureV1) :
    (∃ text, Export (some (.buffer [])) (.PrivateKey k) = (none, some (.buffer text))
      ∧ ImportPrivateKey (some (NewReader text)) = .ok k)
    ∧ (∃ text, Export (some (.buffer [])) (.Signature s) = (none, some (.buffer text))
      ∧ ImportSignature (some (NewReader text)) = .ok s) := by
  constructor
  · refine ⟨PrefixKEY ++ Base64.Encode k.record ++ str "\n",
      by simp only [Export, key_export_buffer k, List.nil_append], ?_⟩
    have hline := ReadString_encoded PrefixKEY k.record [] .EOF (by decide)
    rw [List.append_nil] at hline
    have hver : k.record.head? = some VersionOne := by rw [key_record_eq k]; rfl
    rw [NewReader,
      ImportPrivateKey_line _ _ _ hline (Base64.ReadAllDecoder_Encode _),
      if_pos ⟨by rw [key_length_record k]; decide, hver⟩, getPrivateKeyV1_record]
  · refine ⟨PrefixSIG ++ Base64.Encode s.record ++ str "\n",
      by simp only [Export, sig_export_buffer s, List.nil_append], ?_⟩
    have hline := ReadString_encoded PrefixSIG s.record [] .EOF (by decide)
    rw [List.append_nil] at hline
    have hver : s.record.head? = some VersionOne := by rw [sig_record_eq s]; rfl
    rw [NewReader,
      ImportSignature_line _ _ _ hline (Base64.ReadAllDecoder_Encode _),
      if_pos ⟨by rw [sig_length_record s]; decide, hver⟩, getSignatureV1_record]

/-! ## Witnesses for signing and verification -/

set_option maxRecDepth 100000 in
/-- C1 at a concrete input: the key pair generated from an empty entropy stream and the
message `Hello World!`. -/
theorem C1_sign_then_verify_witness :
    ∃ sig, (demoPrivateKey.Sign demoPrimitive (some helloWorld)).1 = .ok sig
      ∧ (demoPublicKey.Verify demoPrimitive (some helloWorld) (some sig)).1 = (true, none) :=
  C1_sign_then_verify demoPrimitive (NewReader []) helloWorld demoPrivateKey demoPublicKey
    (by decide) rfl
    (by intro rawpub rawpriv _ digest; simp [demoPrimitive])

set_option maxRecDepth 100000 in
/-- C5 at a concrete input: the test public key (id 386e418a77ca), a signature with id
000000000000 and a message stream that fails on its first read. -/
theorem C5_key_id_mismatch_witness :
    testPublicKeyV1.Verify demoPrimitive (some (ErrReader (.other 1))) (some zeroSignature)
      = ((false, some .ErrKeyIdMismatch), some (ErrReader (.other 1))) :=
  C5_key_id_mismatch demoPrimitive testPublicKeyV1 zeroSignature (ErrReader (.other 1))
    (by decide)

/-- C6 at a concrete input: public key and signature with id 000000000000 and the message
`Hello World!`. -/
theorem C6_verify_verdict_witness :
    (zeroPublicKey.Verify demoPrimitive (some helloWorld) (some zeroSignature)).1
        = (demoPrimitive.Verify zeroPublicKey.bytes (demoPrimitive.sha512 helloWorld.data).val
            zeroSignature.bytes, none)
      ∧ (demoPrimitive.Verify zeroPublicKey.bytes (demoPrimitive.sha512 helloWorld.data).val
            zeroSignature.bytes = false →
          (zeroPublicKey.Verify demoPrimitive (some helloWorld) (some zeroSignature)).1
            = (false, none))
      ∧ ∀ m2 : Reader,
          (zeroPublicKey.Verify demoPrimitive (some m2) none).1
            = (false, some .ErrInvalidSignature) :=
  C6_verify_verdict demoPrimitive zeroPublicKey zeroSignature helloWorld rfl rfl

/-! ## Public keys: the key id is checked on import -/

/-- Importing the line `PUB:` ‖ base64(`rec`) ‖ newline goes through the record parser. -/
theorem ImportPublicKey_encoded (rec : List Byte) (hlen : 39 ≤ rec.length)
    (hver : rec.head? = some VersionOne) :
    ImportPublicKey (some (NewReader (str "PUB:" ++ Base64.Encode rec ++ str "\n")))
      = if (SHA256.Sum256 (rec.drop 7)).val.take 6 = slice rec 1 7 then
          .ok ⟨copyArr sizeIDv1 (slice rec 1 7), copyArr PublicKeySize (rec.drop 7)⟩
        else .error .ErrInvalidKeyFormat := by
  have hline := ReadString_encoded PrefixPUB rec [] .EOF (by decide)
  rw [List.append_nil] at hline
  have hgt : rec.length > sizeVersion := by show 1 < rec.length; omega
  rw [show str "PUB:" = PrefixPUB from rfl, NewReader,
    ImportPublicKey_line _ _ _ hline (Base64.ReadAllDecoder_Encode _), if_pos ⟨hgt, hver⟩,
    getPublicKeyV1_sized rec hlen hver]

set_option maxRecDepth 100000 in
/-- C3, as stated, fails: the private key with id 000000000000 and zero key bytes
is accepted by `ImportPrivateKey` (from `zeroPrivateKeyLine`), its `Public()` is
`zeroPublicKey`, `Export` writes `zeroPublicKeyLine` for it, and
`ImportPublicKey` rejects that line. -/
theorem C3_counterexample :
    ImportPrivateKey (some (NewReader zeroPrivateKeyLine)) = .ok zeroPrivateKey
      ∧ zeroPrivateKey.Public = zeroPublicKey
      ∧ Export (some (.buffer [])) (.PublicKey zeroPublicKey)
          = (none, some (.buffer zeroPublicKeyLine))
      ∧ ImportPublicKey (some (NewReader zeroPublicKeyLine)) = .error .ErrInvalidKeyFormat := by
  decide

/-- C3 (amended): for every public key `x` whose key id is the first 6 bytes of
SHA-256 of its 32 key bytes, `ImportPublicKey` applied to the text that `Export`
writes for `x` succeeds and returns `x`. -/
theorem C3_roundtrip_public (x : publicKeyV1)
    (hid : (SHA256.Sum256 x.bytes.val).val.take 6 = x.id.val) :
    ∃ text, Export (some (.buffer [])) (.PublicKey x) = (none, some (.buffer text))
      ∧ ImportPublicKey (some (NewReader text)) = .ok x := by
  refine ⟨PrefixPUB ++ Base64.Encode x.record ++ str "\n",
    by simp only [Export, pub_export_buffer x, List.nil_append], ?_⟩
  have hline := ReadString_encoded PrefixPUB x.record [] .EOF (by decide)
  rw [List.append_nil] at hline
  have hver : x.record.head? = some VersionOne := by rw [pub_record_eq x]; rfl
  rw [NewReader, ImportPublicKey_line _ _ _ hline (Base64.ReadAllDecoder_Encode _),
    if_pos ⟨by rw [pub_length_record x]; decide, hver⟩, getPublicKeyV1_record, if_pos hid]

set_option maxRecDepth 100000 in
/-- C3 (amended) at a concrete input: the public key of `testPublicKey`, whose id
386e418a77ca starts the SHA-256 digest of its key bytes. -/
theorem C3_roundtrip_public_witness :
    ∃ text, Export (some (.buffer [])) (.PublicKey testPublicKeyV1) = (none, some (.buffer text))
      ∧ ImportPublicKey (some (NewReader text)) = .ok testPublicKeyV1 :=
  C3_roundtrip_public testPublicKeyV1 (by decide)

set_option maxRecDepth 100000 in
/-- C4, as stated, fails: `tamperedPublicKeyRecord` has 39 bytes and version
byte 1, and `ImportPublicKey` rejects its line. -/
theorem C4_counterexample :
    tamperedPublicKeyRecord.length = 39 ∧ tamperedPublicKeyRecord.head? = some VersionOne
      ∧ ImportPublicKey
          (some (NewReader (str "PUB:" ++ Base64.Encode tamperedPublicKeyRecord ++ str "\n")))
        = .error .ErrInvalidKeyFormat := by
  decide

/-- C4 (amended): for every 39-byte record `rec` with `rec[0] = 1`,
`ImportPublicKey` of the line `PUB:` ‖ base64(`rec`) ‖ newline succeeds exactly
when `rec[1..7)` is the first 6 bytes of SHA-256 of `rec[7..39)`; it then returns
the public key with id `rec[1..7)` and key bytes `rec[7..39)`, and otherwise it
fails. -/
theorem C4_public_record_import (rec : List Byte) (hlen : rec.length = 39)
    (hver : rec.head? = some VersionOne) :
    ((SHA256.Sum256 (slice rec 7 39)).val.take 6 = slice rec 1 7 →
        ∃ k, ImportPublicKey (some (NewReader (str "PUB:" ++ Base64.Encode rec ++ str "\n")))
            = .ok k
          ∧ k.id.val = slice rec 1 7 ∧ k.bytes.val = slice rec 7 39)
      ∧ (¬ (SHA256.Sum256 (slice rec 7 39)).val.take 6 = slice rec 1 7 →
        ∃ err, ImportPublicKey (some (NewReader (str "PUB:" ++ Base64.Encode rec ++ str "\n")))
            = .error err) := by
  have hs : slice rec 7 39 = rec.drop 7 := by
    rw [slice, List.take_of_length_le (by omega)]
  rw [hs, ImportPublicKey_encoded rec (by omega) hver]
  constructor
  · intro h
    refine ⟨_, if_pos h, ?_, ?_⟩
    · exact copyArr_val _ _ (by
        show (slice rec 1 7).length = 6
        simp only [slice, List.length_drop, List.length_take]; omega)
    · exact copyArr_val _ _ (by
        show (rec.drop 7).length = 32
        simp only [List.length_drop]; omega)
  · intro h
    exact ⟨_, if_neg h⟩

set_option maxRecDepth 100000 in
/-- C4 (amended) at a concrete input: the 39-byte record of `testPublicKey`. -/
theorem C4_public_record_import_witness :
    ∃ k, ImportPublicKey
          (some (NewReader (str "PUB:" ++ Base64.Encode testPublicKeyRecord ++ str "\n")))
        = .ok k
      ∧ k.id.val = slice testPublicKeyRecord 1 7 ∧ k.bytes.val = slice testPublicKeyRecord 7 39 :=
  (C4_public_record_import testPublicKeyRecord (by decide) (by decide)).1 (by decide)

/-! ## Checksum validation and tag check on import -/

/-- The first line of a stream that holds `tag ++ body`, a newline and more. -/
theorem ReadString_tagged (tag body tail : List Byte) (e : Error) (htag : (10 : Byte) ∉ tag)
    (hnl : (10 : Byte) ∉ body) :
    ReadString ⟨tag ++ body ++ 10 :: tail, e⟩ 10 = .ok (tag ++ (body ++ [10])) := by
  have hmem : (10 : Byte) ∉ tag ++ body := by
    intro h
    rcases List.mem_append.mp h with h1 | h1
    · exact htag h1
    · exact hnl h1
  rw [ReadString_line (tag ++ body) tail e hmem, List.append_assoc]

/-- C7: let a stream start with the tag, a base64 body without newline and a
newline, and let the body decode to a record `rec` of at least 77 bytes with
`rec[0] = 1`. Then `ImportPrivateKey` (tag `KEY:`) succeeds if and only if
`rec[1..7)` equals the first 6 bytes of SHA-256 of `rec[7..]`, and fails with
`ErrInvalidKeyFormat` when they differ; `ImportSignature` (tag `SIG:`) likewise,
failing with `ErrInvalidSigFormat`. -/
theorem C7_checksum_validation (body tail rec : List Byte) (e : Error)
    (hnl : (10 : Byte) ∉ body) (hdec : Base64.ReadAllDecoder (body ++ [10]) = .ok rec)
    (hlen : 77 ≤ rec.length) (hver : rec.head? = some VersionOne) :
    (((∃ k, ImportPrivateKey (some ⟨PrefixKEY ++ body ++ 10 :: tail, e⟩) = .ok k)
          ↔ slice rec 1 7 = (SHA256.Sum256 (rec.drop 7)).val.take 6)
        ∧ (slice rec 1 7 ≠ (SHA256.Sum256 (rec.drop 7)).val.take 6 →
            ImportPrivateKey (some ⟨PrefixKEY ++ body ++ 10 :: tail, e⟩)
              = .error .ErrInvalidKeyFormat))
      ∧ (((∃ s, ImportSignature (some ⟨PrefixSIG ++ body ++ 10 :: tail, e⟩) = .ok s)
          ↔ slice rec 1 7 = (SHA256.Sum256 (rec.drop 7)).val.take 6)
        ∧ (slice rec 1 7 ≠ (SHA256.Sum256 (rec.drop 7)).val.take 6 →
            ImportSignature (some ⟨PrefixSIG ++ body ++ 10 :: tail, e⟩)
              = .error .ErrInvalidSigFormat)) := by
  have hgt : rec.length > sizeVersion := by show 1 < rec.length; omega
  have hk := ImportPrivateKey_line _ _ _
    (ReadString_tagged PrefixKEY body tail e (by decide) hnl) hdec
  have hs := ImportSignature_line _ _ _
    (ReadString_tagged PrefixSIG body tail e (by decide) hnl) hdec
  rw [if_pos ⟨hgt, hver⟩, getPrivateKeyV1_sized rec hlen hver] at hk
  rw [if_pos ⟨hgt, hver⟩, getSignatureV1_sized rec hlen hver] at hs
  rw [hk, hs]
  by_cases hc : (SHA256.Sum256 (rec.drop 7)).val.take 6 = slice rec 1 7
  · rw [if_pos hc, if_pos hc]
    exact ⟨⟨⟨fun _ => hc.symm, fun _ => ⟨_, rfl⟩⟩, fun h => absurd hc.symm h⟩,
      ⟨⟨fun _ => hc.symm, fun _ => ⟨_, rfl⟩⟩, fun h => absurd hc.symm h⟩⟩
  · rw [if_neg hc, if_neg hc]
    exact ⟨⟨⟨(fun ⟨_, h⟩ => by cases h), fun h => absurd h.symm hc⟩, fun _ => rfl⟩,
      ⟨⟨(fun ⟨_, h⟩ => by cases h), fun h => absurd h.symm hc⟩, fun _ => rfl⟩⟩

set_option maxRecDepth 100000 in
/-- C7 at a concrete input: the base64 body and the 77-byte record of `testPrivateKey`. -/
theorem C7_checksum_validation_witness :
    (((∃ k, ImportPrivateKey (some ⟨PrefixKEY ++ testPrivateKeyBody ++ 10 :: [], .EOF⟩) = .ok k)
          ↔ slice testPrivateKeyRecord 1 7
              = (SHA256.Sum256 (testPrivateKeyRecord.drop 7)).val.take 6)
        ∧ (slice testPrivateKeyRecord 1 7
              ≠ (SHA256.Sum256 (testPrivateKeyRecord.drop 7)).val.take 6 →
            ImportPrivateKey (some ⟨PrefixKEY ++ testPrivateKeyBody ++ 10 :: [], .EOF⟩)
              = .error .ErrInvalidKeyFormat))
      ∧ (((∃ s, ImportSignature (some ⟨PrefixSIG ++ testPrivateKeyBody ++ 10 :: [], .EOF⟩) = .ok s)
          ↔ slice testPrivateKeyRecord 1 7
              = (SHA256.Sum256 (testPrivateKeyRecord.drop 7)).val.take 6)
        ∧ (slice testPrivateKeyRecord 1 7
              ≠ (SHA256.Sum256 (testPrivateKeyRecord.drop 7)).val.take 6 →
            ImportSignature (some ⟨PrefixSIG ++ testPrivateKeyBody ++ 10 :: [], .EOF⟩)
              = .error .ErrInvalidSigFormat)) :=
  C7_checksum_validation testPrivateKeyBody [] testPrivateKeyRecord .EOF
    (by decide) (by decide) (by decide) (by decide)

/-- C10: when the first line of the input (the bytes up to and including the
first newline) does not start with `KEY:`, `ImportPrivateKey` fails with
`ErrInvalidKeyFormat`; when it does not start with `PUB:`, `ImportPublicKey`
fails with `ErrInvalidPubFormat`; when it does not start with `SIG:`,
`ImportSignature` fails with `ErrInvalidSigFormat`; whatever the line holds. -/
theorem C10_tag_required (r : Reader) (line : List Byte)
    (hline : ReadString r 10 = .ok line) :
    (¬ str "KEY:" <+: line → ImportPrivateKey (some r) = .error .ErrInvalidKeyFormat)
      ∧ (¬ str "PUB:" <+: line → ImportPublicKey (some r) = .error .ErrInvalidPubFormat)
      ∧ (¬ str "SIG:" <+: line → ImportSignature (some r) = .error .ErrInvalidSigFormat) := by
  refine ⟨?_, ?_, ?_⟩
  · intro h
    have hb : ¬ PrefixKEY.isPrefixOf line = true := by
      rw [List.isPrefixOf_iff_prefix]; exact h
    simp only [Bool.not_eq_true] at hb
    simp only [ImportPrivateKey, hline, hb, Bool.false_eq_true, not_false_eq_true, if_true]
  · intro h
    have hb : ¬ PrefixPUB.isPrefixOf line = true := by
      rw [List.isPrefixOf_iff_prefix]; exact h
    simp only [Bool.not_eq_true] at hb
    simp only [ImportPublicKey, hline, hb, Bool.false_eq_true, not_false_eq_true, if_true]
  · intro h
    have hb : ¬ PrefixSIG.isPrefixOf line = true := by
      rw [List.isPrefixOf_iff_prefix]; exact h
    simp only [Bool.not_eq_true] at hb
    simp only [ImportSignature, hline, hb, Bool.false_eq_true, not_false_eq_true, if_true]

set_option maxRecDepth 100000 in
/-- C10 at a concrete input: a line of `common_test.go` that carries no tag at all. -/
theorem C10_tag_required_witness :
    ImportPrivateKey (some (NewReader testBadPublicKey_3)) = .error .ErrInvalidKeyFormat
      ∧ ImportPublicKey (some (NewReader testBadPublicKey_3)) = .error .ErrInvalidPubFormat
      ∧ ImportSignature (some (NewReader testBadPublicKey_3)) = .error .ErrInvalidSigFormat :=
  have h := C10_tag_required (NewReader testBadPublicKey_3) testBadPublicKey_3 (by decide)
  ⟨h.1 (by decide), h.2.1 (by decide), h.2.2 (by decide)⟩

/-! ## Import: unreadable lines, undersized records, decoder errors -/

/-- C11: when the input stream holds no newline byte (it ends, or fails, before
one is read), each import function fails with the stream's own error (`io.EOF`
for an input that simply ends), whatever bytes were read; with a nil reader each
fails with `ErrNilReader`. -/
theorem C11_unterminated_input (r : Reader) (h : (10 : Byte) ∉ r.data) :
    (ImportPrivateKey (some r) = .error r.err ∧ ImportPublicKey (some r) = .error r.err
        ∧ ImportSignature (some r) = .error r.err)
      ∧ (ImportPrivateKey none = .error .ErrNilReader
        ∧ ImportPublicKey none = .error .ErrNilReader
        ∧ ImportSignature none = .error .ErrNilReader) := by
  have hr : ReadString r 10 = .error r.err := by simp only [ReadString, h, if_false]
  refine ⟨⟨?_, ?_, ?_⟩, rfl, rfl, rfl⟩
  · simp only [ImportPrivateKey, hr]
  · simp only [ImportPublicKey, hr]
  · simp only [ImportSignature, hr]

set_option maxRecDepth 100000 in
/-- C11 at a concrete input: the test public key line without its newline, whose
bytes are an otherwise valid tag and record. -/
theorem C11_unterminated_input_witness :
    (ImportPrivateKey (some (NewReader testBadPublicKey_1)) = .error .EOF
        ∧ ImportPublicKey (some (NewReader testBadPublicKey_1)) = .error .EOF
        ∧ ImportSignature (some (NewReader testBadPublicKey_1)) = .error .EOF)
      ∧ (ImportPrivateKey none = .error .ErrNilReader
        ∧ ImportPublicKey none = .error .ErrNilReader
        ∧ ImportSignature none = .error .ErrNilReader) :=
  C11_unterminated_input (NewReader testBadPublicKey_1) (by decide)

/-- C12: let the first line of the input be the tag followed by `rest`, and let
`rest` decode to a record `rec`. If `rec` has at most 1 byte, or `rec[0]` is not
1, or `rec` is shorter than the record size of the type (77 bytes for a private
key and a signature, 39 for a public key), then the import fails with the
format error of that type. -/
theorem C12_undersized_or_wrong_version (r : Reader) (rest rec : List Byte)
    (hdec : Base64.ReadAllDecoder rest = .ok rec) :
    (ReadString r 10 = .ok (str "KEY:" ++ rest) →
        (rec.length ≤ 1 ∨ rec.head? ≠ some VersionOne ∨ rec.length < 77) →
        ImportPrivateKey (some r) = .error .ErrInvalidKeyFormat)
      ∧ (ReadString r 10 = .ok (str "PUB:" ++ rest) →
        (rec.length ≤ 1 ∨ rec.head? ≠ some VersionOne ∨ rec.length < 39) →
        ImportPublicKey (some r) = .error .ErrInvalidPubFormat)
      ∧ (ReadString r 10 = .ok (str "SIG:" ++ rest) →
        (rec.length ≤ 1 ∨ rec.head? ≠ some VersionOne ∨ rec.length < 77) →
        ImportSignature (some r) = .error .ErrInvalidSigFormat) := by
  refine ⟨?_, ?_, ?_⟩
  · intro hline hbad
    rw [ImportPrivateKey_line r rest rec hline hdec]
    by_cases hc : rec.length > sizeVersion ∧ rec.head? = some VersionOne
    · have hshort : rec.length < sizeVersion + sizeCheckv1 + sizeIDv1 + PrivateKeySize := by
        show rec.length < 77
        have h1 : 1 < rec.length := hc.1
        rcases hbad with hb | hb | hb
        · omega
        · exact absurd hc.2 hb
        · exact hb
      rw [if_pos hc, getPrivateKeyV1, if_pos hshort]
    · rw [if_neg hc]
  · intro hline hbad
    rw [ImportPublicKey_line r rest rec hline hdec]
    by_cases hc : rec.length > sizeVersion ∧ rec.head? = some VersionOne
    · have hshort : rec.length < sizeVersion + sizeCheckv1 + PublicKeySize := by
        show rec.length < 39
        have h1 : 1 < rec.length := hc.1
        rcases hbad with hb | hb | hb
        · omega
        · exact absurd hc.2 hb
        · exact hb
      rw [if_pos hc, getPublicKeyV1, if_pos hshort]
    · rw [if_neg hc]
  · intro hline hbad
    rw [ImportSignature_line r rest rec hline hdec]
    by_cases hc : rec.length > sizeVersion ∧ rec.head? = some VersionOne
    · have hshort : rec.length < sizeVersion + sizeCheckv1 + sizeIDv1 + SignatureSize := by
        show rec.length < 77
        have h1 : 1 < rec.length := hc.1
        rcases hbad with hb | hb | hb
        · omega
        · exact absurd hc.2 hb
        · exact hb
      rw [if_pos hc, getSignatureV1, if_pos hshort]
    · rw [if_neg hc]

set_option maxRecDepth 100000 in
/-- C12 at a concrete input: the line `testBadPublicKey_5` of `common_test.go`,
whose body decodes to 32 bytes. -/
theorem C12_undersized_or_wrong_version_witness :
    ImportPublicKey (some (NewReader (str "PUB:" ++ testBadPublicKey_5_rest)))
      = .error .ErrInvalidPubFormat :=
  (C12_undersized_or_wrong_version (NewReader (str "PUB:" ++ testBadPublicKey_5_rest))
    testBadPublicKey_5_rest testBadPublicKey_5_record (by decide)).2.1 (by decide)
    (Or.inr (Or.inr (by decide)))

set_option maxRecDepth 100000 in
/-- C13 fails on the code: `wrongIdPublicKeyLine` is a public-key line with
version byte 1 and 39 bytes whose key id does not match its key bytes, and
`ImportPublicKey` rejects it with the private-key format error. -/
theorem C13_private_key_error_from_public_import :
    ImportPublicKey (some (NewReader wrongIdPublicKeyLine)) = .error .ErrInvalidKeyFormat := by
  decide

/-- The decoder has one error value. -/
theorem Base64.Decode_error : ∀ (l : List Byte) (err : Error),
    Base64.Decode l = .error err → err = .CorruptInputError
  | [], err, h => by simp [Base64.Decode] at h
  | [_], err, h => by
    simp only [Base64.Decode, Except.error.injEq] at h
    exact h.symm
  | [c0, c1], err, h => by
    simp only [Base64.Decode] at h
    split at h
    · cases h
    · exact (Except.error.inj h).symm
  | [c0, c1, c2], err, h => by
    simp only [Base64.Decode] at h
    split at h
    · cases h
    · exact (Except.error.inj h).symm
  | c0 :: c1 :: c2 :: c3 :: rest, err, h => by
    simp only [Base64.Decode] at h
    split at h
    · cases hr : Base64.Decode rest with
      | ok out => simp [hr] at h
      | error e =>
        simp only [hr, Except.error.injEq] at h
        subst h
        exact Base64.Decode_error rest e hr
    · exact (Except.error.inj h).symm

/-- C14: let the first line of the input be the tag followed by `rest`, and let
the base64 stream decoder fail on `rest` with `err`. Then the import fails with
exactly `err`, which is the decoder's `CorruptInputError` and not an error of this
package. -/
theorem C14_decoder_error_passes (r : Reader) (rest : List Byte) (err : Error)
    (hdec : Base64.ReadAllDecoder rest = .error err) :
    (ReadString r 10 = .ok (str "KEY:" ++ rest) → ImportPrivateKey (some r) = .error err)
      ∧ (ReadString r 10 = .ok (str "PUB:" ++ rest) → ImportPublicKey (some r) = .error err)
      ∧ (ReadString r 10 = .ok (str "SIG:" ++ rest) → ImportSignature (some r) = .error err)
      ∧ err = .CorruptInputError := by
  have hk : (str "KEY:").isPrefixOf (str "KEY:" ++ rest) = true := by
    rw [List.isPrefixOf_iff_prefix]; exact List.prefix_append _ _
  have hp : (str "PUB:").isPrefixOf (str "PUB:" ++ rest) = true := by
    rw [List.isPrefixOf_iff_prefix]; exact List.prefix_append _ _
  have hs : (str "SIG:").isPrefixOf (str "SIG:" ++ rest) = true := by
    rw [List.isPrefixOf_iff_prefix]; exact List.prefix_append _ _
  refine ⟨?_, ?_, ?_, Base64.Decode_error _ err hdec⟩
  · intro hline
    simp only [ImportPrivateKey, hline, PrefixKEY, hk, not_true_eq_false, if_false,
      TrimPrefix_append, hdec]
  · intro hline
    simp only [ImportPublicKey, hline, PrefixPUB, hp, not_true_eq_false, if_false,
      TrimPrefix_append, hdec]
  · intro hline
    simp only [ImportSignature, hline, PrefixSIG, hs, not_true_eq_false, if_false,
      TrimPrefix_append, hdec]

set_option maxRecDepth 100000 in
/-- C14 at a concrete input: the line `SIG:AQ==` with base64 padding. -/
theorem C14_decoder_error_passes_witness :
    ImportSignature (some (NewReader (str "SIG:" ++ paddedRest))) = .error .CorruptInputError :=
  (C14_decoder_error_passes (NewReader (str "SIG:" ++ paddedRest)) paddedRest
    .CorruptInputError (by decide)).2.2.1 (by decide)

/-! ## Export dispatch -/

/-- C17: with a nil sink `Export` fails with `ErrNilWriter` for every item, an
unrecognised or nil one included; with a non-nil sink and an item that is none
of the three artifact kinds (nil included) it fails with `ErrUnknownType` and
leaves the sink as it was. -/
theorem C17_export_dispatch_errors :
    (∀ item : Item, Export none item = (some .ErrNilWriter, none))
      ∧ (∀ w : Writer, Export (some w) .other = (some .ErrUnknownType, some w)) :=
  ⟨fun _ => rfl, fun _ => rfl⟩

/-! ## Key generation -/

/-- C19: when the primitive returns the raw pair `(rawpub, rawpriv)`,
`NewPrivateKey` returns a private key holding `rawpriv` and a public key holding
`rawpub`, both with the same key id, which is the first 6 bytes of SHA-256 of
`rawpub` (so `Id()` of both returns these 6 bytes); and `NewPrivateKey` fails
with an error exactly when the primitive's generation fails with that error. -/
theorem C19_key_id_derivation (P : Primitive) (rand : Reader) :
    (∀ rawpub rawpriv, P.GenerateKey rand = .ok (rawpub, rawpriv) →
        ∃ priv pub, NewPrivateKey P rand = .ok (priv, pub)
          ∧ priv.id = pub.id
          ∧ priv.id.val = (SHA256.Sum256 rawpub.val).val.take 6
          ∧ priv.Id = (SHA256.Sum256 rawpub.val).val.take 6
          ∧ pub.Id = (SHA256.Sum256 rawpub.val).val.take 6
          ∧ priv.bytes = rawpriv ∧ pub.bytes = rawpub)
      ∧ (∀ err, NewPrivateKey P rand = .error err ↔ P.GenerateKey rand = .error err) := by
  constructor
  · intro rawpub rawpriv hg
    have hlen : ((SHA256.Sum256 rawpub.val).val.take sizeIDv1).length = sizeIDv1 := by
      rw [List.length_take, (SHA256.Sum256 rawpub.val).property]
      rfl
    have hid := copyArr_val sizeIDv1 _ hlen
    refine ⟨⟨copyArr sizeIDv1 ((SHA256.Sum256 rawpub.val).val.take sizeIDv1),
        copyArr PrivateKeySize rawpriv.val⟩,
      ⟨copyArr sizeIDv1 ((SHA256.Sum256 rawpub.val).val.take sizeIDv1),
        copyArr PublicKeySize rawpub.val⟩,
      by simp only [NewPrivateKey, newPrivateKeyV1, hg], rfl, hid, ?_, ?_,
      copyArr_eq _, copyArr_eq _⟩
    · show (copyArr sizeIDv1 (copyArr sizeIDv1 _).val).val = _
      rw [copyArr_eq, hid]
    · show (copyArr sizeIDv1 (copyArr sizeIDv1 _).val).val = _
      rw [copyArr_eq, hid]
  · intro err
    cases hg : P.GenerateKey rand with
    | error e => simp only [NewPrivateKey, newPrivateKeyV1, hg, Except.error.injEq]
    | ok pair =>
      obtain ⟨rawpub, rawpriv⟩ := pair
      simp only [NewPrivateKey, newPrivateKeyV1, hg, reduceCtorEq, iff_self]

set_option maxRecDepth 100000 in
/-- C19 at a concrete input: the stand-in primitive on an empty entropy stream,
which returns 32 and 64 zero bytes. -/
theorem C19_key_id_derivation_witness :
    ∃ priv pub, NewPrivateKey demoPrimitive (NewReader []) = .ok (priv, pub)
      ∧ priv.id = pub.id
      ∧ priv.id.val = (SHA256.Sum256 (Bytes.zero 32).val).val.take 6
      ∧ priv.Id = (SHA256.Sum256 (Bytes.zero 32).val).val.take 6
      ∧ pub.Id = (SHA256.Sum256 (Bytes.zero 32).val).val.take 6
      ∧ priv.bytes = Bytes.zero 64 ∧ pub.bytes = Bytes.zero 32 :=
  (C19_key_id_derivation demoPrimitive (NewReader [])).1 (Bytes.zero 32) (Bytes.zero 64)
    (by decide)

/-- C20: for every key pair `(priv, pub)` that `NewPrivateKey` returns,
`priv.Public()` equals `pub` (same key id, same 32 key bytes), provided the
primitive puts the public key in the last 32 bytes of the private key it
generates; and for every private key `k`, `k.Public()` is the key id of `k` with
bytes 32..64 of `k`: a value computed from the fields of `k` alone, which the
method only reads, so that every call on `k` returns this same value. -/
theorem C20_public_of_generated (P : Primitive) (rand : Reader) (priv : privateKeyV1)
    (pub : publicKeyV1) (hgen : NewPrivateKey P rand = .ok (priv, pub))
    (hlayout : ∀ rawpub rawpriv, P.GenerateKey rand = .ok (rawpub, rawpriv) →
      rawpriv.val.drop 32 = rawpub.val) :
    priv.Public = pub
      ∧ ∀ k : privateKeyV1, k.Public.id = k.id ∧ k.Public.bytes.val = k.bytes.val.drop 32 := by
  have hpub : ∀ k : privateKeyV1,
      k.Public.id = k.id ∧ k.Public.bytes.val = k.bytes.val.drop 32 := by
    intro k
    refine ⟨copyArr_eq _, copyArr_val _ _ ?_⟩
    simp only [List.length_drop, k.bytes.property]
    rfl
  refine ⟨?_, hpub⟩
  unfold NewPrivateKey newPrivateKeyV1 at hgen
  cases hg : P.GenerateKey rand with
  | error e => simp [hg] at hgen
  | ok pair =>
    obtain ⟨rawpub, rawpriv⟩ := pair
    simp only [hg, Except.ok.injEq, Prod.mk.injEq, copyArr_eq] at hgen
    obtain ⟨hpriv, hpk⟩ := hgen
    subst hpriv hpk
    have hl := hlayout rawpub rawpriv hg
    simp only [privateKeyV1.Public, copyArr_eq, hl]

set_option maxRecDepth 100000 in
/-- C20 at a concrete input: the key pair of the stand-in primitive on an empty
entropy stream. -/
theorem C20_public_of_generated_witness :
    demoPrivateKey.Public = demoPublicKey
      ∧ ∀ k : privateKeyV1, k.Public.id = k.id ∧ k.Public.bytes.val = k.bytes.val.drop 32 :=
  C20_public_of_generated demoPrimitive (NewReader []) demoPrivateKey demoPublicKey
    (by decide)
    (by
      intro rawpub rawpriv h
      simp only [demoPrimitive, Except.ok.injEq, Prod.mk.injEq] at h
      obtain ⟨h1, h2⟩ := h
      subst h1 h2
      decide)

/-! ## Export to a limited sink -/

theorem Base64.length_Encode : ∀ l : List Byte, (Base64.Encode l).length = (l.length * 4 + 2) / 3
  | [] => rfl
  | [_] => by simp [Base64.Encode]
  | [_, _] => by simp [Base64.Encode]
  | _ :: _ :: _ :: rest => by
    have ih := Base64.length_Encode rest
    simp only [Base64.Encode, List.length_cons, ih]
    omega

/-- One `Write` on a `LimitedWriter` around a buffer: an error once the limit is
used up, otherwise as many bytes as the limit allows and no error. -/
theorem limited_Write (d : List Byte) (N : Int) (e : Error) (p : List Byte) :
    Writer.Write (.limited (.buffer d) N e) p =
      if N < 1 then ((0, some e), .limited (.buffer d) N e)
      else ((min N.toNat p.length, none),
        .limited (.buffer (d ++ p.take N.toNat)) (N - (min N.toNat p.length : Nat)) e) := by
  by_cases h : N < 1
  · simp only [Writer.Write, h, if_true]
  · simp only [Writer.Write, h, if_false]
    by_cases h2 : N < (p.length : Int)
    · simp only [h2, if_true, List.length_take]
    · have h3 : p.take N.toNat = p := List.take_of_length_le (by omega)
      have h4 : min N.toNat p.length = p.length := by omega
      simp only [h2, if_false, h3, h4]


theorem limited_Write_fail (d : List Byte) (N : Int) (e : Error) (p : List Byte) (h : N < 1) :
    Writer.Write (.limited (.buffer d) N e) p = ((0, some e), .limited (.buffer d) N e) := by
  rw [limited_Write, if_pos h]

theorem limited_Write_ok (d : List Byte) (N : Int) (e : Error) (p : List Byte) (h : ¬ N < 1) :
    Writer.Write (.limited (.buffer d) N e) p = ((min N.toNat p.length, none),
      .limited (.buffer (d ++ p.take N.toNat)) (N - (min N.toNat p.length : Nat)) e) := by
  rw [limited_Write, if_neg h]

/-- Writing a record of 3 to 767 bytes to a `LimitedWriter` around a buffer
whose limit is below the length of the encoding plus the newline ends in the
writer's error. -/
theorem writeRecord_limited (d : List Byte) (N : Int) (e : Error) (p : List Byte)
    (h3 : 3 ≤ p.length) (h : p.length < 768)
    (hN : N < ((Base64.Encode p).length : Int) + 1) :
    (writeRecord (.limited (.buffer d) N e) p).1 = some e := by
  have hk : p.length - p.length % 3 = 3 * (p.length / 3) := by omega
  have henc := congrArg List.length (Base64.Encode_take_drop (p.length / 3) p)
  rw [← hk, List.length_append] at henc
  simp only [writeRecord, Base64.Write_fresh _ p h3 h]
  generalize Base64.Encode (p.take (p.length - p.length % 3)) = E1 at henc ⊢
  generalize p.drop (p.length - p.length % 3) = buf at henc ⊢
  by_cases h1 : N < 1
  · rw [limited_Write_fail d N e E1 h1]
  · rw [limited_Write_ok d N e E1 h1]
    by_cases hb : buf.length > 0
    · simp only [Base64.encoder.Close, hb, and_self, if_true]
      by_cases h2 : N - (min N.toNat E1.length : Nat) < 1
      · rw [limited_Write_fail _ _ e _ h2]
      · rw [limited_Write_ok _ _ e _ h2]
        simp only []
        rw [limited_Write_fail _ _ e _ (by omega)]
    · have hnil : buf = [] := List.eq_nil_of_length_eq_zero (by omega)
      subst hnil
      simp only [Base64.Encode, List.length_nil, Nat.add_zero] at henc
      simp only [Base64.encoder.Close, List.length_nil, gt_iff_lt, Nat.lt_irrefl, and_false,
        if_false]
      rw [limited_Write_fail _ _ e _ (by omega)]

/-- An `export` to a `LimitedWriter` around a buffer, reduced to `writeRecord`. -/
theorem export_limited (tag rec d : List Byte) (L : Int) (e : Error) (htag : tag.length = 4)
    (h3 : 3 ≤ rec.length) (h : rec.length < 768)
    (hL : L < ((tag ++ Base64.Encode rec ++ str "\n").length : Int)) :
    (match ((Writer.limited (.buffer d) L e).Write tag).1.2 with
      | some err => (some err, ((Writer.limited (.buffer d) L e).Write tag).2)
      | none => writeRecord ((Writer.limited (.buffer d) L e).Write tag).2 rec).1 = some e := by
  have hnl : (str "\n").length = 1 := by decide
  simp only [List.length_append, htag, hnl] at hL
  by_cases h1 : L < 1
  · rw [limited_Write_fail d L e tag h1]
  · rw [limited_Write_ok d L e tag h1]
    exact writeRecord_limited _ _ e rec h3 h (by rw [htag]; push_cast; omega)

/-- C18: let the sink be a `LimitedWriter` around a buffer with limit `L` and
error `e` (it accepts at most `L` bytes in all, cuts the write that crosses the
limit short without error and fails every later write with `e`). When `L` is
smaller than the length of the full line (tag, base64 of the record, newline:
108 bytes for a private key or a signature, 57 for a public key), `Export`
returns exactly `e`. -/
theorem C18_limited_sink (k : privateKeyV1) (p : publicKeyV1) (s : signatureV1)
    (d : List Byte) (L : Int) (e : Error) :
    ((str "KEY:" ++ Base64.Encode k.record ++ str "\n").length = 108
        ∧ (L < 108 → (Export (some (.limited (.buffer d) L e)) (.PrivateKey k)).1 = some e))
      ∧ ((str "PUB:" ++ Base64.Encode p.record ++ str "\n").length = 57
        ∧ (L < 57 → (Export (some (.limited (.buffer d) L e)) (.PublicKey p)).1 = some e))
      ∧ ((str "SIG:" ++ Base64.Encode s.record ++ str "\n").length = 108
        ∧ (L < 108 → (Export (some (.limited (.buffer d) L e)) (.Signature s)).1 = some e)) := by
  have hnl : (str "\n").length = 1 := by decide
  have hk : (str "KEY:" ++ Base64.Encode k.record ++ str "\n").length = 108 := by
    simp only [List.length_append, Base64.length_Encode, key_length_record, hnl]
    decide
  have hp : (str "PUB:" ++ Base64.Encode p.record ++ str "\n").length = 57 := by
    simp only [List.length_append, Base64.length_Encode, pub_length_record, hnl]
    decide
  have hs : (str "SIG:" ++ Base64.Encode s.record ++ str "\n").length = 108 := by
    simp only [List.length_append, Base64.length_Encode, sig_length_record, hnl]
    decide
  refine ⟨⟨hk, fun hL => ?_⟩, ⟨hp, fun hL => ?_⟩, ⟨hs, fun hL => ?_⟩⟩
  · exact export_limited (str "KEY:") k.record d L e (by decide)
      (by rw [key_length_record]; decide) (by rw [key_length_record]; decide)
      (by rw [hk]; exact_mod_cast hL)
  · exact export_limited (str "PUB:") p.record d L e (by decide)
      (by rw [pub_length_record]; decide) (by rw [pub_length_record]; decide)
      (by rw [hp]; exact_mod_cast hL)
  · exact export_limited (str "SIG:") s.record d L e (by decide)
      (by rw [sig_length_record]; decide) (by rw [sig_length_record]; decide)
      (by rw [hs]; exact_mod_cast hL)

set_option maxRecDepth 100000 in
/-- C18 at a concrete input: the test public key and `LimitWriter(buf, 16)` of
`common_test.go`, whose error is `ErrUnknownType`. -/
theorem C18_limited_sink_witness :
    (Export (some (LimitWriter (.buffer []) 16)) (.PublicKey testPublicKeyV1)).1
      = some .ErrUnknownType :=
  (C18_limited_sink zeroPrivateKey testPublicKeyV1 zeroSignature [] 16 .ErrUnknownType).2.1.2
    (by decide)

/-! ## Truncated bodies -/

/-- Decoding a string of alphabet characters fails exactly when its length is 1
modulo 4; otherwise it gives 3 bytes for every 4 characters, rounded down. -/
theorem Base64.Decode_alphabet : ∀ l : List Byte, (∀ c ∈ l, ∃ v, c = Base64.encodeChar v) →
    (l.length % 4 = 1 → Base64.Decode l = .error .CorruptInputError)
      ∧ (l.length % 4 ≠ 1 → ∃ out, Base64.Decode l = .ok out ∧ out.length = l.length * 3 / 4)
  | [], _ => ⟨fun h => by simp at h, fun _ => ⟨[], rfl, rfl⟩⟩
  | [_], _ => ⟨fun _ => rfl, fun h => by simp at h⟩
  | [c0, c1], hv => by
    obtain ⟨v0, rfl⟩ := hv c0 (by simp)
    obtain ⟨v1, rfl⟩ := hv c1 (by simp)
    refine ⟨fun h => by simp at h, fun _ => ?_⟩
    simp only [Base64.Decode, Base64.decodeChar_encodeChar]
    exact ⟨_, rfl, by simp⟩
  | [c0, c1, c2], hv => by
    obtain ⟨v0, rfl⟩ := hv c0 (by simp)
    obtain ⟨v1, rfl⟩ := hv c1 (by simp)
    obtain ⟨v2, rfl⟩ := hv c2 (by simp)
    refine ⟨fun h => by simp at h, fun _ => ?_⟩
    simp only [Base64.Decode, Base64.decodeChar_encodeChar]
    exact ⟨_, rfl, by simp⟩
  | c0 :: c1 :: c2 :: c3 :: rest, hv => by
    obtain ⟨v0, rfl⟩ := hv c0 (by simp)
    obtain ⟨v1, rfl⟩ := hv c1 (by simp)
    obtain ⟨v2, rfl⟩ := hv c2 (by simp)
    obtain ⟨v3, rfl⟩ := hv c3 (by simp)
    have ih := Base64.Decode_alphabet rest (fun c hc => hv c (by simp [hc]))
    have hlen : (Base64.encodeChar v0 :: Base64.encodeChar v1 :: Base64.encodeChar v2
        :: Base64.encodeChar v3 :: rest).length = rest.length + 4 := rfl
    constructor
    · intro h
      rw [hlen] at h
      have := ih.1 (by omega)
      simp only [Base64.Decode, Base64.decodeChar_encodeChar, this]
    · intro h
      rw [hlen] at h
      obtain ⟨out, ho, hl⟩ := ih.2 (by omega)
      simp only [Base64.Decode, Base64.decodeChar_encodeChar, ho]
      exact ⟨_, rfl, by simp only [List.length_cons, hl]; omega⟩

/-- The decoder's newline filter leaves a string of alphabet characters unchanged. -/
theorem Base64.filter_alphabet (l : List Byte) (h : ∀ c ∈ l, ∃ v, c = Base64.encodeChar v) :
    l.filter (fun c => decide (c ≠ 13 ∧ c ≠ 10)) = l := by
  rw [List.filter_eq_self]
  intro c hc
  obtain ⟨v, rfl⟩ := h c hc
  have := Base64.encodeChar_plain v
  simp only [decide_eq_true_eq]
  exact ⟨this.1, this.2.1⟩

/-- What is left of an encoding after deleting at least one character: it holds
no newline; the stream decoder fails on it when its length is 1 modulo 4 and
otherwise gives fewer bytes than were encoded. -/
theorem truncated_decode (rec body : List Byte) (hsub : List.Sublist body (Base64.Encode rec))
    (hlt : body.length < (Base64.Encode rec).length) :
    (10 : Byte) ∉ body
      ∧ (body.length % 4 = 1 →
          Base64.ReadAllDecoder (body ++ [10]) = .error .CorruptInputError)
      ∧ (body.length % 4 ≠ 1 →
          ∃ out, Base64.ReadAllDecoder (body ++ [10]) = .ok out ∧ out.length < rec.length) := by
  have hal : ∀ c ∈ body, ∃ v, c = Base64.encodeChar v :=
    fun c hc => Base64.mem_Encode rec c (hsub.subset hc)
  have hnl : (10 : Byte) ∉ body := by
    intro h
    obtain ⟨v, hv⟩ := hal 10 h
    exact (Base64.encodeChar_plain v).2.1 hv.symm
  have hfil : (body ++ [10]).filter (fun c => decide (c ≠ 13 ∧ c ≠ 10)) = body := by
    rw [List.filter_append, Base64.filter_alphabet body hal]
    simp
  have hdec := Base64.Decode_alphabet body hal
  rw [Base64.length_Encode] at hlt
  refine ⟨hnl, ?_, ?_⟩
  · intro h
    rw [Base64.ReadAllDecoder, hfil]
    exact hdec.1 h
  · intro h
    obtain ⟨out, ho, hl⟩ := hdec.2 h
    refine ⟨out, ?_, ?_⟩
    · rw [Base64.ReadAllDecoder, hfil]
      exact ho
    · rw [hl]
      omega

theorem ImportPrivateKey_decode_error (r : Reader) (rest : List Byte) (err : Error)
    (hline : ReadString r 10 = .ok (PrefixKEY ++ rest))
    (hdec : Base64.ReadAllDecoder rest = .error err) :
    ImportPrivateKey (some r) = .error err := by
  have : PrefixKEY.isPrefixOf (PrefixKEY ++ rest) = true := by
    rw [List.isPrefixOf_iff_prefix]; exact List.prefix_append _ _
  simp only [ImportPrivateKey, hline, this, not_true_eq_false, if_false, TrimPrefix_append, hdec]

theorem ImportPublicKey_decode_error (r : Reader) (rest : List Byte) (err : Error)
    (hline : ReadString r 10 = .ok (PrefixPUB ++ rest))
    (hdec : Base64.ReadAllDecoder rest = .error err) :
    ImportPublicKey (some r) = .error err := by
  have : PrefixPUB.isPrefixOf (PrefixPUB ++ rest) = true := by
    rw [List.isPrefixOf_iff_prefix]; exact List.prefix_append _ _
  simp only [ImportPublicKey, hline, this, not_true_eq_false, if_false, TrimPrefix_append, hdec]

theorem ImportSignature_decode_error (r : Reader) (rest : List Byte) (err : Error)
    (hline : ReadString r 10 = .ok (PrefixSIG ++ rest))
    (hdec : Base64.ReadAllDecoder rest = .error err) :
    ImportSignature (some r) = .error err := by
  have : PrefixSIG.isPrefixOf (PrefixSIG ++ rest) = true := by
    rw [List.isPrefixOf_iff_prefix]; exact List.prefix_append _ _
  simp only [ImportSignature, hline, this, not_true_eq_false, if_false, TrimPrefix_append, hdec]

theorem ImportPrivateKey_short (r : Reader) (rest rec : List Byte)
    (hline : ReadString r 10 = .ok (PrefixKEY ++ rest))
    (hdec : Base64.ReadAllDecoder rest = .ok rec) (hshort : rec.length < 77) :
    ImportPrivateKey (some r) = .error .ErrInvalidKeyFormat := by
  have h : rec.length < sizeVersion + sizeCheckv1 + sizeIDv1 + PrivateKeySize := hshort
  rw [ImportPrivateKey_line r rest rec hline hdec, getPrivateKeyV1, if_pos h, ite_self]

theorem ImportPublicKey_short (r : Reader) (rest rec : List Byte)
    (hline : ReadString r 10 = .ok (PrefixPUB ++ rest))
    (hdec : Base64.ReadAllDecoder rest = .ok rec) (hshort : rec.length < 39) :
    ImportPublicKey (some r) = .error .ErrInvalidPubFormat := by
  have h : rec.length < sizeVersion + sizeCheckv1 + PublicKeySize := hshort
  rw [ImportPublicKey_line r rest rec hline hdec, getPublicKeyV1, if_pos h, ite_self]

theorem ImportSignature_short (r : Reader) (rest rec : List Byte)
    (hline : ReadString r 10 = .ok (PrefixSIG ++ rest))
    (hdec : Base64.ReadAllDecoder rest = .ok rec) (hshort : rec.length < 77) :
    ImportSignature (some r) = .error .ErrInvalidSigFormat := by
  have h : rec.length < sizeVersion + sizeCheckv1 + sizeIDv1 + SignatureSize := hshort
  rw [ImportSignature_line r rest rec hline hdec, getSignatureV1, if_pos h, ite_self]

set_option maxRecDepth 100000 in
/-- C15, as stated, fails: `Export` writes `PUB:` ‖ `testPublicKeyBody` ‖ newline
for the test public key; with the last 3 body characters deleted (49 are left)
`ImportPublicKey` fails with the decoder's `CorruptInputError`, not with
`ErrInvalidPubFormat`. -/
theorem C15_counterexample :
    Export (some (.buffer [])) (.PublicKey testPublicKeyV1)
        = (none, some (.buffer (str "PUB:" ++ testPublicKeyBody ++ str "\n")))
      ∧ truncatedPublicKeyBody = testPublicKeyBody.take 49
      ∧ ImportPublicKey (some (NewReader (str "PUB:" ++ truncatedPublicKeyBody ++ str "\n")))
          = .error .CorruptInputError := by
  decide

/-- C15 (amended): let `body` be what is left of the base64 body of an exported
line after deleting one or more of its characters. The import function of the
artifact's type rejects the line tag ‖ `body` ‖ newline: with the decoder's
`CorruptInputError` when the length of `body` is 1 modulo 4, and with the format
error of the type otherwise. -/
theorem C15_truncated_body (k : privateKeyV1) (p : publicKeyV1) (s : signatureV1)
    (body : List Byte) :
    (List.Sublist body (Base64.Encode k.record) → body.length < (Base64.Encode k.record).length →
        ImportPrivateKey (some (NewReader (str "KEY:" ++ body ++ str "\n")))
          = if body.length % 4 = 1 then .error .CorruptInputError
            else .error .ErrInvalidKeyFormat)
      ∧ (List.Sublist body (Base64.Encode p.record) → body.length < (Base64.Encode p.record).length →
        ImportPublicKey (some (NewReader (str "PUB:" ++ body ++ str "\n")))
          = if body.length % 4 = 1 then .error .CorruptInputError
            else .error .ErrInvalidPubFormat)
      ∧ (List.Sublist body (Base64.Encode s.record) → body.length < (Base64.Encode s.record).length →
        ImportSignature (some (NewReader (str "SIG:" ++ body ++ str "\n")))
          = if body.length % 4 = 1 then .error .CorruptInputError
            else .error .ErrInvalidSigFormat) := by
  refine ⟨?_, ?_, ?_⟩
  · intro hsub hlt
    obtain ⟨hnl, h1, h2⟩ := truncated_decode k.record body hsub hlt
    have hline := ReadString_tagged PrefixKEY body [] .EOF (by decide) hnl
    rw [str_newline, NewReader, show str "KEY:" = PrefixKEY from rfl]
    by_cases hm : body.length % 4 = 1
    · rw [if_pos hm]
      exact ImportPrivateKey_decode_error _ _ _ hline (h1 hm)
    · rw [if_neg hm]
      obtain ⟨out, ho, hl⟩ := h2 hm
      exact ImportPrivateKey_short _ _ out hline ho (by rw [key_length_record] at hl; exact hl)
  · intro hsub hlt
    obtain ⟨hnl, h1, h2⟩ := truncated_decode p.record body hsub hlt
    have hline := ReadString_tagged PrefixPUB body [] .EOF (by decide) hnl
    rw [str_newline, NewReader, show str "PUB:" = PrefixPUB from rfl]
    by_cases hm : body.length % 4 = 1
    · rw [if_pos hm]
      exact ImportPublicKey_decode_error _ _ _ hline (h1 hm)
    · rw [if_neg hm]
      obtain ⟨out, ho, hl⟩ := h2 hm
      exact ImportPublicKey_short _ _ out hline ho (by rw [pub_length_record] at hl; exact hl)
  · intro hsub hlt
    obtain ⟨hnl, h1, h2⟩ := truncated_decode s.record body hsub hlt
    have hline := ReadString_tagged PrefixSIG body [] .EOF (by decide) hnl
    rw [str_newline, NewReader, show str "SIG:" = PrefixSIG from rfl]
    by_cases hm : body.length % 4 = 1
    · rw [if_pos hm]
      exact ImportSignature_decode_error _ _ _ hline (h1 hm)
    · rw [if_neg hm]
      obtain ⟨out, ho, hl⟩ := h2 hm
      exact ImportSignature_short _ _ out hline ho (by rw [sig_length_record] at hl; exact hl)

set_option maxRecDepth 100000 in
/-- C15 (amended) at a concrete input: the body of `testBadPublicKey_5`, which is
that of the test public key without 9 characters; 43 characters are left. -/
theorem C15_truncated_body_witness :
    ImportPublicKey (some (NewReader (str "PUB:" ++ testBadPublicKey_5_body ++ str "\n")))
      = if testBadPublicKey_5_body.length % 4 = 1 then .error .CorruptInputError
        else .error .ErrInvalidPubFormat :=
  (C15_truncated_body zeroPrivateKey testPublicKeyV1 zeroSignature
    testBadPublicKey_5_body).2.1 (by decide) (by decide)

/-! ## Export after import -/

theorem slice_append_drop (l : List Byte) (a b : Nat) (hab : a ≤ b) (hb : b ≤ l.length) :
    slice l a b ++ l.drop b = l.drop a := by
  have h : a ≤ (l.take b).length := by rw [List.length_take]; omega
  rw [slice, ← List.drop_append_of_le_length h, List.take_append_drop]

theorem head_append_drop (l : List Byte) (x : Byte) (h : l.head? = some x) :
    [x] ++ l.drop 1 = l := by
  cases l with
  | nil => simp at h
  | cons y t =>
    simp only [List.head?_cons, Option.some.injEq] at h
    subst h
    rfl

/-- A record of at least 7 bytes with version byte 1, split into version, key id
and key bytes. -/
theorem public_record_split (rec : List Byte) (hlen : 7 ≤ rec.length)
    (hver : rec.head? = some VersionOne) :
    [VersionOne] ++ slice rec 1 7 ++ rec.drop 7 = rec := by
  rw [List.append_assoc, slice_append_drop rec 1 7 (by omega) hlen,
    head_append_drop rec _ hver]

/-- The private key parsed from a 77-byte record has that record. -/
theorem getPrivateKeyV1_exact (rec : List Byte) (k : privateKeyV1) (hlen : rec.length = 77)
    (h : getPrivateKeyV1 rec = .ok k) : k.record = rec := by
  have hver : rec.head? = some VersionOne := by
    by_contra hne
    have h1 : ¬ rec.length < sizeVersion + sizeCheckv1 + sizeIDv1 + PrivateKeySize := by
      show ¬ rec.length < 77
      omega
    simp [getPrivateKeyV1, h1, hne] at h
  rw [getPrivateKeyV1_sized rec (by omega) hver] at h
  by_cases hc : (SHA256.Sum256 (rec.drop 7)).val.take 6 = slice rec 1 7
  · rw [if_pos hc] at h
    have hk := Except.ok.inj h
    have hid : k.id.val = slice rec 7 13 := by
      rw [← hk]
      exact copyArr_val _ _ (by
        show (slice rec 7 13).length = 6
        simp only [slice, List.length_drop, List.length_take]; omega)
    have hby : k.bytes.val = rec.drop 13 := by
      rw [← hk]
      exact copyArr_val _ _ (by
        show (rec.drop 13).length = 64
        simp only [List.length_drop]; omega)
    rw [key_record_eq, hid, hby, List.append_assoc _ (slice rec 7 13),
      slice_append_drop rec 7 13 (by omega) (by omega), hc]
    exact public_record_split rec (by omega) hver
  · rw [if_neg hc] at h
    cases h


/-- The signature parsed from a 77-byte record has that record. -/
theorem getSignatureV1_exact (rec : List Byte) (k : signatureV1) (hlen : rec.length = 77)
    (h : getSignatureV1 rec = .ok k) : k.record = rec := by
  have hver : rec.head? = some VersionOne := by
    by_contra hne
    have h1 : ¬ rec.length < sizeVersion + sizeCheckv1 + sizeIDv1 + SignatureSize := by
      show ¬ rec.length < 77
      omega
    simp [getSignatureV1, h1, hne] at h
  rw [getSignatureV1_sized rec (by omega) hver] at h
  by_cases hc : (SHA256.Sum256 (rec.drop 7)).val.take 6 = slice rec 1 7
  · rw [if_pos hc] at h
    have hk := Except.ok.inj h
    have hid : k.id.val = slice rec 7 13 := by
      rw [← hk]
      exact copyArr_val _ _ (by
        show (slice rec 7 13).length = 6
        simp only [slice, List.length_drop, List.length_take]; omega)
    have hby : k.bytes.val = rec.drop 13 := by
      rw [← hk]
      exact copyArr_val _ _ (by
        show (rec.drop 13).length = 64
        simp only [List.length_drop]; omega)
    rw [sig_record_eq, hid, hby, List.append_assoc _ (slice rec 7 13),
      slice_append_drop rec 7 13 (by omega) (by omega), hc]
    exact public_record_split rec (by omega) hver
  · rw [if_neg hc] at h
    cases h

/-- The public key parsed from a 39-byte record has that record. -/
theorem getPublicKeyV1_exact (rec : List Byte) (k : publicKeyV1) (hlen : rec.length = 39)
    (h : getPublicKeyV1 rec = .ok k) : k.record = rec := by
  have hver : rec.head? = some VersionOne := by
    by_contra hne
    have h1 : ¬ rec.length < sizeVersion + sizeCheckv1 + PublicKeySize := by
      show ¬ rec.length < 39
      omega
    simp [getPublicKeyV1, h1, hne] at h
  rw [getPublicKeyV1_sized rec (by omega) hver] at h
  by_cases hc : (SHA256.Sum256 (rec.drop 7)).val.take 6 = slice rec 1 7
  · rw [if_pos hc] at h
    have hk := Except.ok.inj h
    have hid : k.id.val = slice rec 1 7 := by
      rw [← hk]
      exact copyArr_val _ _ (by
        show (slice rec 1 7).length = 6
        simp only [slice, List.length_drop, List.length_take]; omega)
    have hby : k.bytes.val = rec.drop 7 := by
      rw [← hk]
      exact copyArr_val _ _ (by
        show (rec.drop 7).length = 32
        simp only [List.length_drop]; omega)
    rw [pub_record_eq, hid, hby]
    exact public_record_split rec (by omega) hver
  · rw [if_neg hc] at h
    cases h

set_option maxRecDepth 100000 in
/-- C16, as stated, fails. `nonCanonicalPrivateKeyLine` differs from
`testPrivateKey` in its last body character only; `ImportPrivateKey` accepts it
and returns the key of `testPrivateKey`, for which `Export` writes
`testPrivateKey`. `longPrivateKeyLine` holds a record of 78 bytes;
`ImportPrivateKey` accepts it and returns the zero key, for which `Export` writes
`zeroPrivateKeyLine`. -/
theorem C16_counterexample :
    (ImportPrivateKey (some (NewReader nonCanonicalPrivateKeyLine)) = .ok testPrivateKeyV1
        ∧ Export (some (.buffer [])) (.PrivateKey testPrivateKeyV1)
            = (none, some (.buffer testPrivateKey))
        ∧ testPrivateKey ≠ nonCanonicalPrivateKeyLine)
      ∧ (ImportPrivateKey (some (NewReader longPrivateKeyLine)) = .ok zeroPrivateKey
        ∧ Export (some (.buffer [])) (.PrivateKey zeroPrivateKey)
            = (none, some (.buffer zeroPrivateKeyLine))
        ∧ zeroPrivateKeyLine ≠ longPrivateKeyLine) := by
  decide

/-- C16 (amended): for every record `rec` of exactly the record size of the type
(77 bytes for a private key and a signature, 39 for a public key): when the import
function accepts the line tag ‖ base64(`rec`) ‖ newline, `Export` of the
imported artifact writes exactly that line. -/
theorem C16_export_recreates_line (rec : List Byte) :
    (rec.length = 77 → ∀ k : privateKeyV1,
        ImportPrivateKey (some (NewReader (str "KEY:" ++ Base64.Encode rec ++ str "\n"))) = .ok k →
        Export (some (.buffer [])) (.PrivateKey k)
          = (none, some (.buffer (str "KEY:" ++ Base64.Encode rec ++ str "\n"))))
      ∧ (rec.length = 39 → ∀ k : publicKeyV1,
        ImportPublicKey (some (NewReader (str "PUB:" ++ Base64.Encode rec ++ str "\n"))) = .ok k →
        Export (some (.buffer [])) (.PublicKey k)
          = (none, some (.buffer (str "PUB:" ++ Base64.Encode rec ++ str "\n"))))
      ∧ (rec.length = 77 → ∀ k : signatureV1,
        ImportSignature (some (NewReader (str "SIG:" ++ Base64.Encode rec ++ str "\n"))) = .ok k →
        Export (some (.buffer [])) (.Signature k)
          = (none, some (.buffer (str "SIG:" ++ Base64.Encode rec ++ str "\n")))) := by
  refine ⟨?_, ?_, ?_⟩
  · intro hlen k hk
    have hline := ReadString_encoded PrefixKEY rec [] .EOF (by decide)
    rw [List.append_nil] at hline
    rw [show str "KEY:" = PrefixKEY from rfl, NewReader,
      ImportPrivateKey_line _ _ _ hline (Base64.ReadAllDecoder_Encode _)] at hk
    split at hk
    · have hrec := getPrivateKeyV1_exact rec k hlen hk
      simp only [Export, key_export_buffer k, List.nil_append, hrec]
      rfl
    · cases hk
  · intro hlen k hk
    have hline := ReadString_encoded PrefixPUB rec [] .EOF (by decide)
    rw [List.append_nil] at hline
    rw [show str "PUB:" = PrefixPUB from rfl, NewReader,
      ImportPublicKey_line _ _ _ hline (Base64.ReadAllDecoder_Encode _)] at hk
    split at hk
    · have hrec := getPublicKeyV1_exact rec k hlen hk
      simp only [Export, pub_export_buffer k, List.nil_append, hrec]
      rfl
    · cases hk
  · intro hlen k hk
    have hline := ReadString_encoded PrefixSIG rec [] .EOF (by decide)
    rw [List.append_nil] at hline
    rw [show str "SIG:" = PrefixSIG from rfl, NewReader,
      ImportSignature_line _ _ _ hline (Base64.ReadAllDecoder_Encode _)] at hk
    split at hk
    · have hrec := getSignatureV1_exact rec k hlen hk
      simp only [Export, sig_export_buffer k, List.nil_append, hrec]
      rfl
    · cases hk

set_option maxRecDepth 100000 in
/-- C16 (amended) at a concrete input: the 77-byte record of `testPrivateKey`. -/
theorem C16_export_recreates_line_witness :
    Export (some (.buffer [])) (.PrivateKey testPrivateKeyV1)
      = (none, some (.buffer (str "KEY:" ++ Base64.Encode testPrivateKeyRecord ++ str "\n"))) :=
  (C16_export_recreates_line testPrivateKeyRecord).1 (by decide) testPrivateKeyV1 (by decide)

/-! ## Key-id binding -/

/-- The accessors return the 6 stored id bytes. -/
theorem makeKeyId_val (id : Bytes sizeIDv1) : makeKeyId id.val = id.val :=
  copyArr_val sizeIDv1 id.val id.property

/-- C21: for every private key `k` (however it was obtained) and every message
stream `m` that reads to its end without error, `k.Sign(m)` succeeds with a
signature whose `KeyId()` equals `k.Id()`; `k.Public().Id()` equals `k.Id()`;
and `Id()` of a private key, `Id()` of a public key and `KeyId()` of a signature
each return exactly 6 bytes, the stored key id. -/
theorem C21_key_id_binding (P : Primitive) (k : privateKeyV1) (m : Reader)
    (hm : m.err = .EOF) :
    (∃ sig, (k.Sign P (some m)).1 = .ok sig ∧ sig.KeyId = k.Id)
      ∧ k.Public.Id = k.Id
      ∧ (∀ x : privateKeyV1, x.Id = x.id.val ∧ x.Id.length = 6)
      ∧ (∀ x : publicKeyV1, x.Id = x.id.val ∧ x.Id.length = 6)
      ∧ (∀ x : signatureV1, x.KeyId = x.id.val ∧ x.KeyId.length = 6) := by
  refine ⟨⟨⟨copyArr sizeIDv1 k.id.val,
      copyArr SignatureSize (P.Sign k.bytes (P.sha512 m.data).val).val⟩, ?_, ?_⟩, ?_, ?_, ?_, ?_⟩
  · simp only [privateKeyV1.Sign, ioCopy, hm, if_true]
  · simp only [signatureV1.KeyId, privateKeyV1.Id, copyArr_eq]
  · simp only [publicKeyV1.Id, privateKeyV1.Id, privateKeyV1.Public, copyArr_eq]
  · intro x
    have h := makeKeyId_val x.id
    exact ⟨h, by rw [privateKeyV1.Id, h]; exact x.id.property⟩
  · intro x
    have h := makeKeyId_val x.id
    exact ⟨h, by rw [publicKeyV1.Id, h]; exact x.id.property⟩
  · intro x
    have h := makeKeyId_val x.id
    exact ⟨h, by rw [signatureV1.KeyId, h]; exact x.id.property⟩

set_option maxRecDepth 100000 in
/-- C21 at a concrete input: the key of `testPrivateKey` and the message
`Hello World!`. -/
theorem C21_key_id_binding_witness :
    (∃ sig, (testPrivateKeyV1.Sign demoPrimitive (some helloWorld)).1 = .ok sig
        ∧ sig.KeyId = testPrivateKeyV1.Id)
      ∧ testPrivateKeyV1.Public.Id = testPrivateKeyV1.Id
      ∧ (∀ x : privateKeyV1, x.Id = x.id.val ∧ x.Id.length = 6)
      ∧ (∀ x : publicKeyV1, x.Id = x.id.val ∧ x.Id.length = 6)
      ∧ (∀ x : signatureV1, x.KeyId = x.id.val ∧ x.KeyId.length = 6) :=
  C21_key_id_binding demoPrimitive testPrivateKeyV1 helloWorld rfl

/-! ## The key-id rule on public-key import -/

/-- C22: let a stream start with `PUB:`, a base64 body without newline and a
newline, and let the body decode to a record `rec` of at least 39 bytes with
`rec[0] = 1`. Then `ImportPublicKey` succeeds if and only if `rec[1..7)` equals
the first 6 bytes of SHA-256 of `rec[7..]`; and when `rec` has exactly 39 bytes,
the key id of the imported public key is the first 6 bytes of SHA-256 of its own
32 key bytes. -/
theorem C22_public_key_id_rule (body tail rec : List Byte) (e : Error)
    (hnl : (10 : Byte) ∉ body) (hdec : Base64.ReadAllDecoder (body ++ [10]) = .ok rec)
    (hlen : 39 ≤ rec.length) (hver : rec.head? = some VersionOne) :
    ((∃ k, ImportPublicKey (some ⟨PrefixPUB ++ body ++ 10 :: tail, e⟩) = .ok k)
        ↔ slice rec 1 7 = (SHA256.Sum256 (rec.drop 7)).val.take 6)
      ∧ (rec.length = 39 → ∀ k : publicKeyV1,
          ImportPublicKey (some ⟨PrefixPUB ++ body ++ 10 :: tail, e⟩) = .ok k →
          k.id.val = (SHA256.Sum256 k.bytes.val).val.take 6
            ∧ k.id.val = slice rec 1 7 ∧ k.bytes.val = slice rec 7 39) := by
  have hgt : rec.length > sizeVersion := by show 1 < rec.length; omega
  have hp := ImportPublicKey_line _ _ _
    (ReadString_tagged PrefixPUB body tail e (by decide) hnl) hdec
  rw [if_pos ⟨hgt, hver⟩, getPublicKeyV1_sized rec hlen hver] at hp
  rw [hp]
  by_cases hc : (SHA256.Sum256 (rec.drop 7)).val.take 6 = slice rec 1 7
  · rw [if_pos hc]
    refine ⟨⟨fun _ => hc.symm, fun _ => ⟨_, rfl⟩⟩, ?_⟩
    intro h39 k hk
    have hkk := Except.ok.inj hk
    have hid : k.id.val = slice rec 1 7 := by
      rw [← hkk]
      exact copyArr_val _ _ (by
        show (slice rec 1 7).length = 6
        simp only [slice, List.length_drop, List.length_take]; omega)
    have hby : k.bytes.val = rec.drop 7 := by
      rw [← hkk]
      exact copyArr_val _ _ (by
        show (rec.drop 7).length = 32
        simp only [List.length_drop]; omega)
    have hs : slice rec 7 39 = rec.drop 7 := by
      rw [slice, List.take_of_length_le (by omega)]
    exact ⟨by rw [hid, hby, hc], hid, by rw [hby, hs]⟩
  · rw [if_neg hc]
    refine ⟨⟨(fun ⟨_, h⟩ => by cases h), fun h => absurd h.symm hc⟩, ?_⟩
    intro _ k hk
    cases hk

set_option maxRecDepth 100000 in
/-- C22 at a concrete input: the base64 body and the 39-byte record of
`testPublicKey`. -/
theorem C22_public_key_id_rule_witness :
    ((∃ k, ImportPublicKey (some ⟨PrefixPUB ++ testPublicKeyBody ++ 10 :: [], .EOF⟩) = .ok k)
        ↔ slice testPublicKeyRecord 1 7
            = (SHA256.Sum256 (testPublicKeyRecord.drop 7)).val.take 6)
      ∧ (testPublicKeyRecord.length = 39 → ∀ k : publicKeyV1,
          ImportPublicKey (some ⟨PrefixPUB ++ testPublicKeyBody ++ 10 :: [], .EOF⟩) = .ok k →
          k.id.val = (SHA256.Sum256 k.bytes.val).val.take 6
            ∧ k.id.val = slice testPublicKeyRecord 1 7
            ∧ k.bytes.val = slice testPublicKeyRecord 7 39) :=
  C22_public_key_id_rule testPublicKeyBody [] testPublicKeyRecord .EOF
    (by decide) (by decide) (by decide) (by decide)

end Msign
